import Mathlib

/-!
Verification of the MLT XML adapter
(`contrib/opentimelineio_contrib/adapters/mlt_xml.py`).

The adapter converts an OpenTimelineIO timeline into an MLT XML document.
We shallowly embed the adapter: XML elements become an inductive tree,
the module-level mutable collections (`producers`, `playlists`,
`transitions`) become an explicit state record threaded through the
functions, and each Python function becomes a Lean function of the same
name.  Python dictionaries are insertion-ordered association lists;
in-place mutation of an element that is shared between a dictionary and
the `producer_order_` list is modelled by writing the updated element
back into the dictionary and resolving the order list (which stores
(namespace, key) handles for the shared objects) against the dictionary
at emission time.
-/

namespace MltXml

/-- An XML element as built by `xml.etree.ElementTree`: a tag, an
insertion-ordered attribute dictionary, optional text, and a list of
child elements. -/
inductive Element : Type where
  | elem (tag : String) (attrs : List (String × String))
      (txt : Option String) (children : List Element)
deriving Repr

def Element.tag : Element → String
  | .elem t _ _ _ => t

def Element.attrs : Element → List (String × String)
  | .elem _ a _ _ => a

def Element.txt : Element → Option String
  | .elem _ _ x _ => x

def Element.children : Element → List Element
  | .elem _ _ _ cs => cs

/-- `e.attrib.get(key)` — first binding of `key` in the attribute list. -/
def Element.getAttr (e : Element) (key : String) : Option String :=
  (e.attrs.find? (fun p => p.1 = key)).map (fun p => p.2)

/-- `e.attrib[key] = v` — Python dict assignment: replace the value in
place if the key is present, else append the binding. -/
def attrsSet (a : List (String × String)) (key v : String) : List (String × String) :=
  if a.any (fun p => p.1 = key) then
    a.map (fun p => if p.1 = key then (key, v) else p)
  else
    a ++ [(key, v)]

def Element.setAttr (e : Element) (key v : String) : Element :=
  .elem e.tag (attrsSet e.attrs key v) e.txt e.children

/-- `e.append(child)`. -/
def Element.appendChild (e : Element) (c : Element) : Element :=
  .elem e.tag e.attrs e.txt (e.children ++ [c])

/-- `e.find('./property/[@name=resource]')` — the first `property`
child named `resource`, if any. -/
def Element.findResource (e : Element) : Option Element :=
  e.children.find? (fun c => c.tag = "property" && c.getAttr "name" = some "resource")

/-- Text of the first `resource` property child. -/
def Element.resourceText (e : Element) : Option (Option String) :=
  (e.findResource).map Element.txt

/-- `resource_e.text = v` — rewrite the text of the first `resource`
property child in place (no-op when absent; the Python code would raise
there, but it is never reached with an absent resource). -/
def Element.setResourceText (e : Element) (f : Option String → Option String) : Element :=
  .elem e.tag e.attrs e.txt
    (go e.children)
where
  go : List Element → List Element
    | [] => []
    | c :: cs =>
        if c.tag = "property" && c.getAttr "name" = some "resource" then
          Element.elem c.tag c.attrs (f c.txt) c.children :: cs
        else
          c :: go cs

/-! ## Input data model (the OTIO objects consumed by the adapter) -/

/-- A clip's `media_reference`.  `missing` stands for
`MissingReference` (truthy in Python, name `None`, no `target_url` /
`abstract_target_url` attribute); `external` for `ExternalReference`;
`imageSequence` for a reference exposing `abstract_target_url`.  An
empty `name` models both `None` and `""` (both falsy under `or`). -/
inductive MediaRef : Type where
  | missing
  | external (name : String) (targetUrl : String)
  | imageSequence (name : String) (urlTemplate : String)
      (frameZeroPadding : Nat) (startFrame : Int)
deriving Repr

/-- Modelled from the spec: an "abstract" (templated, frame-numbered)
locator is expanded with a zero-padded frame pattern; the expansion
itself lives in the timeline data model, outside this adapter. -/
def abstract_target_url (urlTemplate : String) (symbol : String) : String :=
  urlTemplate ++ symbol

/-- An OTIO effect.  Only `LinearTimeWarp` and `FreezeFrame` (the two
`TimeEffect`s) are handled by the adapter; `nonTime` effects are
filtered out before `apply_timewarp` is called.  The time scalar is a
number rendered into identifiers with `str`; we model it as an
integer. -/
inductive Effect : Type where
  | linearTimeWarp (timeScalar : Int)
  | freezeFrame
  | nonTime (name : String)
deriving Repr

def Effect.isTimeEffect : Effect → Bool
  | .linearTimeWarp _ => true
  | .freezeFrame => true
  | .nonTime _ => false

/-- The data of a `Clip`: name, trimmed range (`source_range`), media
reference, effects.  Frame values are integers (`RationalTime.value`). -/
structure ClipData : Type where
  name : String
  sourceStart : Int
  sourceDuration : Int
  mediaRef : MediaRef
  effects : List Effect
deriving Repr

/-- The items `get_producer` / `apply_timewarp` are invoked on: a clip
or a gap (the `Transition` branch of `get_producer`'s isinstance check
behaves exactly like the `Gap` branch and is never reached in this
adapter, transitions being pre-expanded into clip/gap legs). -/
inductive SItem : Type where
  | clipS (c : ClipData)
  | gapS (duration : Int)
deriving Repr

/-- `item.duration().value`. -/
def SItem.duration : SItem → Int
  | .clipS c => c.sourceDuration
  | .gapS d => d

/-- `item.source_range.start_time.value` (a gap's range starts at 0). -/
def SItem.sourceStart : SItem → Int
  | .clipS c => c.sourceStart
  | .gapS _ => 0

/-- An item of a track: clip, gap, transition (in/out offsets, frames
consumed from the preceding/following item) or a nested stack. -/
inductive TItem : Type where
  | clip (c : ClipData)
  | gap (duration : Int) (effects : List Effect)
  | transition (inOffset outOffset : Int)
  | stack (name : String) (children : List TItem) (effects : List Effect)
deriving Repr

/-- A `Track` (or a nested `Stack` treated as one): `kind` is `none`
when the object has no `kind` attribute (stacks). -/
structure OtioTrack : Type where
  name : String
  kind : Option String
  items : List TItem
deriving Repr

/-- Modelled from the spec: the nominal frame rate carried by a
timeline's `global_start_time` (a `RationalTime`); floats are embedded
as exact rationals. -/
structure RTime : Type where
  value : Int
  rate : ℚ
deriving Repr

/-- The argument accepted by the entry point.  `other` stands for a
value of any unsupported type, carrying the printed type name. -/
inductive OtioInput : Type where
  | timeline (globalStartTime : Option RTime) (tracks : List OtioTrack)
  | track (t : OtioTrack)
  | stack (tracks : List OtioTrack)
  | clip (c : ClipData)
  | other (typeName : String)
deriving Repr

/-! ## Conversion state

The module-level collections of `mlt_xml.py`: the `producers` dict with
its `video` / `audio` sub-dicts and the `producer_order_` list, plus
the `playlists` and `transitions` lists.  The order list stores
(is-video, key) handles: in Python it stores the very element objects
held by the dicts, which are mutated in place, so at emission time each
handle is resolved against the dictionary, which holds the element's
final value.  Each (namespace, key) pair names at most one object, and
the dictionaries are never overwritten (`setdefault` / guarded insert),
so the handle resolution is faithful to object identity. -/

structure ConvState : Type where
  producersVideo : List (String × Element)
  producersAudio : List (String × Element)
  producerOrder : List (Bool × String)
  playlists : List Element
  transitions : List Element
deriving Repr

/-- The state of a freshly imported module. -/
def initMltState : ConvState :=
  { producersVideo := [], producersAudio := [], producerOrder := [],
    playlists := [], transitions := [] }

/-- Dictionary lookup (first binding). -/
def dictFind (d : List (String × Element)) (k : String) : Option Element :=
  (d.find? (fun p => p.1 = k)).map (fun p => p.2)

/-- Replace the value bound to a present key (used to write back
in-place mutations of an element held by the dictionary). -/
def dictSet (d : List (String × Element)) (k : String) (v : Element) :
    List (String × Element) :=
  d.map (fun p => if p.1 = k then (k, v) else p)

/-- The namespace sub-dict selected by `video_track`. -/
def ConvState.subDict (s : ConvState) (videoTrack : Bool) : List (String × Element) :=
  if videoTrack then s.producersVideo else s.producersAudio

def ConvState.setSubDict (s : ConvState) (videoTrack : Bool)
    (d : List (String × Element)) : ConvState :=
  if videoTrack then { s with producersVideo := d } else { s with producersAudio := d }

/-! ## The element builders of the adapter -/

/-- `create_property_element(name, text)` (the `attrib` parameter is
never supplied with a value in this adapter). -/
def create_property_element (name : String) (txt : Option String) : Element :=
  .elem "property" [("name", name)] txt []

/-- `create_solid(color, length)`. -/
def create_solid (color : String) (length : Int) : Element :=
  .elem "producer"
    [("title", "color"), ("id", "solid_" ++ color),
     ("in", "0"), ("out", toString (length - 1))]
    none
    [create_property_element "length" (some (toString length)),
     create_property_element "eof" (some "pause"),
     create_property_element "resource" (some color),
     create_property_element "mlt_service" (some "color")]

/-- The deduplication key `id_` computed by `get_producer` for an item:
`solid_<color>` for gaps (and transitions), else the media reference's
name if truthy, else the item's own name. -/
def gpId : SItem → String
  | .gapS _ => "solid_black"
  | .clipS c =>
      match c.mediaRef with
      | .missing => c.name
      | .external n _ => if n = "" then c.name else n
      | .imageSequence n _ _ _ => if n = "" then c.name else n

/-- The second half of `get_producer(otio_item, video_track=True)`,
from the `setdefault` on: registration of the element, the `resource`
property bookkeeping and the creation-order list. -/
def get_producer_tail (videoTrack : Bool) (id_ : String) (producer_e : Element)
    (targetUrl0 : Option String) (is_sequence : Bool) (s : ConvState) :
    Element × ConvState :=
  let d := s.subDict videoTrack
  let found := dictFind d id_
  let producer := found.getD producer_e
  let s1 := match found with
    | some _ => s
    | none => s.setSubDict videoTrack (d ++ [(id_, producer_e)])
  let target_url := match targetUrl0 with
    | none => id_
    | some u => if u = "" then id_ else u
  let resProp := producer.findResource
  let enter : Bool := match resProp with
    | none => true
    | some pe => pe.txt = some "black"
  if enter then
    let producer1 := match resProp with
      | none => producer.appendChild
          (create_property_element "resource" (some target_url))
      | some _ => producer
    let producer2 :=
      if is_sequence then
        producer1.appendChild (create_property_element "mlt_service" (some "pixbuf"))
      else producer1
    let s2 := s1.setSubDict videoTrack (dictSet (s1.subDict videoTrack) id_ producer2)
    let s3 :=
      if (videoTrack, id_) ∈ s2.producerOrder then s2
      else { s2 with producerOrder := s2.producerOrder ++ [(videoTrack, id_)] }
    (producer2, s3)
  else
    (producer, s1)

/-- `get_producer(otio_item, video_track=True)`: the first half
computes the solid element (gaps/transitions), the deduplication key
and the resource locator; the rest is `get_producer_tail`. -/
def get_producer (item : SItem) (videoTrack : Bool) (s : ConvState) :
    Element × ConvState :=
  let step :
      Option Element × String × Option String × Bool :=
    match item with
    | .gapS d => (some (create_solid "black" d), "solid_black", none, false)
    | .clipS c =>
        match c.mediaRef with
        | .missing => (none, c.name, none, false)
        | .external n url => (none, if n = "" then c.name else n, some url, false)
        | .imageSequence n tpl pad sf =>
            (none, if n = "" then c.name else n,
             some (abstract_target_url tpl ("%0" ++ toString pad ++ "d")
                   ++ "?begin=" ++ toString sf),
             true)
  let producer0 := step.1
  let id_ := step.2.1
  let targetUrl0 := step.2.2.1
  let is_sequence := step.2.2.2
  let producer_e := producer0.getD (.elem "producer" [("id", id_)] none [])
  get_producer_tail videoTrack id_ producer_e targetUrl0 is_sequence s

/-- `create_entry_element(producer, in_, out_)`. -/
def create_entry_element (producer : Element) (in_ out_ : Int) : Element :=
  .elem "entry"
    [("producer", (producer.getAttr "id").getD ""), ("in", toString in_),
     ("out", toString out_)]
    none []

/-- `create_clip(item, producer)`. -/
def create_clip (c : ClipData) (producer : Element) : Element :=
  create_entry_element producer c.sourceStart
    (c.sourceStart + c.sourceDuration - 1)

/-- `create_blank_element(item)`. -/
def create_blank_element (duration : Int) : Element :=
  .elem "blank" [("length", toString duration)] none []

/-! ## Transition expansion

`otio.algorithms.track_with_expanded_transitions` belongs to the
timeline library, not to the adapter.  Modelled from the spec: a
transition is "pre-expanded into a triple by the input collaborator" —
the preceding item is copied, renamed with a `_transition_pre` suffix
and re-ranged to its trailing `in_offset + out_offset` frames, the
following item symmetrically with `_transition_post`; the items around
a transition are themselves trimmed by the consumed offsets. -/

/-- The leading leg of an expanded transition triple.  A missing or
non-clip neighbour behaves like a gap leg (the expansion inserts a gap
at track edges); its duration is the transition's full duration. -/
def expand_pre (prev : Option TItem) (inOffset outOffset : Int) : SItem :=
  match prev with
  | some (.clip c) =>
      .clipS { c with
        name := c.name ++ "_transition_pre",
        sourceStart := c.sourceStart + c.sourceDuration - inOffset,
        sourceDuration := inOffset + outOffset }
  | _ => .gapS (inOffset + outOffset)

/-- The trailing leg of an expanded transition triple. -/
def expand_post (next : Option TItem) (inOffset outOffset : Int) : SItem :=
  match next with
  | some (.clip c) =>
      .clipS { c with
        name := c.name ++ "_transition_post",
        sourceStart := c.sourceStart - inOffset,
        sourceDuration := inOffset + outOffset }
  | _ => .gapS (inOffset + outOffset)

/-- Modelled from the spec: a clip or gap adjacent to transitions loses
the frames the transitions consume (`out_offset` of a preceding
transition from its head, `in_offset` of a following one from its
tail). -/
def trim_from_transitions (c : ClipData) (prev next : Option TItem) : ClipData :=
  let c1 := match prev with
    | some (.transition _ o) =>
        { c with sourceStart := c.sourceStart + o, sourceDuration := c.sourceDuration - o }
    | _ => c
  match next with
  | some (.transition i _) => { c1 with sourceDuration := c1.sourceDuration - i }
  | _ => c1

/-- The same trimming for a gap's duration. -/
def trim_gap_from_transitions (d : Int) (prev next : Option TItem) : Int :=
  let d1 := match prev with
    | some (.transition _ o) => d - o
    | _ => d
  match next with
  | some (.transition i _) => d1 - i
  | _ => d1

/-- `create_transition(trans_tuple, name)`.  The transition's
`duration()` is its `in_offset + out_offset` (modelled from the spec:
the frames consumed from the preceding plus the following item). -/
def create_transition (item_a : SItem) (inOffset outOffset : Int)
    (item_b : SItem) (name : String) (s : ConvState) : Element × ConvState :=
  let dur := (inOffset + outOffset) - 1
  let pa := get_producer item_a true s
  let producer_a := pa.1
  let s1 := pa.2
  let aRange : Int × Int :=
    match item_a with
    | .gapS _ => (0, item_b.duration - 1)
    | .clipS c => (c.sourceStart, c.sourceStart + c.sourceDuration - 1)
  let track_a : Element :=
    .elem "track"
      [("producer", (producer_a.getAttr "id").getD ""),
       ("in", toString aRange.1), ("out", toString aRange.2)]
      none []
  let pb := get_producer item_b true s1
  let producer_b := pb.1
  let s2 := pb.2
  let bRange : Int × Int :=
    match item_b with
    | .gapS _ => (0, item_b.duration - 1)
    | .clipS c => (c.sourceStart, c.sourceStart + c.sourceDuration - 1)
  let track_b : Element :=
    .elem "track"
      [("producer", (producer_b.getAttr "id").getD ""),
       ("in", toString bRange.1), ("out", toString bRange.2)]
      none []
  let trans_e : Element :=
    .elem "transition"
      [("id", "transition_" ++ name), ("out", toString dur)]
      none
      [create_property_element "a_track" (some "0"),
       create_property_element "b_track" (some "1"),
       create_property_element "factory" none,
       create_property_element "mlt_service" (some "luma")]
  let tractor_e : Element :=
    .elem "tractor"
      [("id", name), ("in", "0"), ("out", toString dur)]
      none
      [track_a, track_b, trans_e]
  (tractor_e, s2)

/-- `apply_timewarp(item, item_e, effect)`: deep-copy the item's
producer, rewrite the copy for the effect, register it (unless the
computed identifier already exists) and repoint `item_e` at it.  The
mutated `item_e` is returned (the Python function mutates it in
place). -/
def apply_timewarp (item : SItem) (item_e : Option Element) (effect : Effect)
    (s : ConvState) : Option Element × ConvState :=
  match item_e with
  | none => (none, s)
  | some e =>
      let gp := get_producer item true s
      let orig := gp.1
      let s1 := gp.2
      match effect with
      | .freezeFrame =>
          let id_ := (orig.getAttr "id").getD "" ++ "_freeze"
                      ++ toString item.sourceStart
          let producer_e :=
            ((orig.setAttr "id" id_).appendChild
              (create_property_element "mlt_service" (some "hold"))).appendChild
              (create_property_element "frame" (some (toString item.sourceStart)))
          let s2 :=
            if (dictFind s1.producersVideo id_).isSome then s1
            else
              { s1 with
                producersVideo := s1.producersVideo ++ [(id_, producer_e)],
                producerOrder := s1.producerOrder ++ [(true, id_)] }
          (some (e.setAttr "producer" id_), s2)
      | .linearTimeWarp k =>
          let id_ := toString k ++ ":" ++ (e.getAttr "producer").getD ""
          let producer_e :=
            (((orig.setAttr "id" id_).appendChild
                (create_property_element "mlt_service" (some "timewarp"))).setResourceText
              (fun t => some (toString k ++ ":" ++ t.getD "")))
          let s2 :=
            if (dictFind s1.producersVideo id_).isSome then s1
            else
              { s1 with
                producersVideo := s1.producersVideo ++ [(id_, producer_e)],
                producerOrder := s1.producerOrder ++ [(true, id_)] }
          (some (e.setAttr "producer" id_), s2)
      | .nonTime _ =>
          -- never reached: the caller filters on `isinstance(effect, TimeEffect)`
          (some e, s)

/-! ## Track assembly -/

/-- The `for effect in item.effects` loop at the end of each
`assemble_track` iteration: only `TimeEffect`s are applied.  The
element mutated by `apply_timewarp` is threaded through. -/
def applyEffects (item : SItem) (item_e : Option Element) (effs : List Effect)
    (s : ConvState) : Option Element × ConvState :=
  match effs with
  | [] => (item_e, s)
  | f :: fs =>
      if f.isTimeEffect then
        let r := apply_timewarp item item_e f s
        applyEffects item r.1 fs r.2
      else
        applyEffects item item_e fs s

mutual

/-- One iteration of the `for item in expanded_track` loop: the
playlist children the item contributes (none when an audio clip is
suppressed) and the updated state.  The item is processed with its
neighbours in scope, exactly as `track_with_expanded_transitions`
delivers it.  The nested-stack case inlines the recursive
`assemble_track(item, track_index, playlist_e)` call of the source (a
stack has no `kind` attribute and its parent is a playlist, hence an
`entry` reference; the playlist slot is reserved on entry and the
finished element written back, matching the in-place append order). -/
def assembleOne (prev : Option TItem) (x : TItem) (next : Option TItem)
    (isAudio : Bool) (trackIndex : Nat) (s : ConvState) :
    List Element × ConvState :=
  match x with
  | .clip c =>
      let tc := trim_from_transitions c prev next
      let gp := get_producer (.clipS tc) true s
      let producer_e := gp.1
      let s1 := gp.2
      if isAudio &&
          (dictFind s1.producersVideo ((producer_e.getAttr "id").getD "")).isSome then
        -- skip adding duplicate audio source for matching video
        ([], s1)
      else
        let item_e := create_clip tc producer_e
        let ef := applyEffects (.clipS tc) (some item_e) tc.effects s1
        (ef.1.toList, ef.2)
  | .gap d effs =>
      let td := trim_gap_from_transitions d prev next
      let item_e := create_blank_element td
      let ef := applyEffects (.gapS td) (some item_e) effs s
      (ef.1.toList, ef.2)
  | .transition i o =>
      let pre := expand_pre prev i o
      let post := expand_post next i o
      let name := "transition_tractor" ++ toString s.transitions.length
      let ct := create_transition pre i o post name s
      let transition_e := ct.1
      let s1 := { ct.2 with transitions := ct.2.transitions ++ [transition_e] }
      let entry := Element.elem "entry"
        [("producer", (transition_e.getAttr "id").getD ""),
         ("in", (transition_e.getAttr "in").getD ""),
         ("out", (transition_e.getAttr "out").getD "")] none []
      ([entry], s1)
  | .stack n cs effs =>
      let playlistId := if n = "" then "playlist" ++ toString trackIndex else n
      let pos := s.playlists.length
      let s0 := { s with playlists :=
          s.playlists ++ [Element.elem "playlist" [("id", playlistId)] none []] }
      let refE := Element.elem "entry" [("producer", playlistId)] none []
      let rc := assemble_items none cs false trackIndex s0
      let finished := Element.elem "playlist" [("id", playlistId)] none rc.1
      let s2 := { rc.2 with playlists := rc.2.playlists.set pos finished }
      -- the effects loop runs with `item_e = None`: `apply_timewarp`
      -- returns before touching anything, so its item argument is moot
      let ef := applyEffects (.gapS 0) none effs s2
      ([refE], ef.2)

/-- The `for item in expanded_track` loop of `assemble_track`, fused
with the transition expansion. -/
def assemble_items (prev : Option TItem) (items : List TItem) (isAudio : Bool)
    (trackIndex : Nat) (s : ConvState) : List Element × ConvState :=
  match items with
  | [] => ([], s)
  | x :: rest =>
      let r1 := assembleOne prev x rest.head? isAudio trackIndex s
      let r2 := assemble_items (some x) rest isAudio trackIndex r1.2
      (r1.1 ++ r2.1, r2.2)

end

/-- `assemble_track(track, track_index, parent)`.  Returns the
`track` / `entry` element the Python code appends to `parent` (the
choice depends on `parent.tag`, passed here as `parentTag`); the
playlist itself is appended to the `playlists` list when assembly
starts and receives its children as they are built, modelled by
reserving its slot first and writing the finished element back. -/
def assemble_track (tname : String) (kind : Option String) (items : List TItem)
    (trackIndex : Nat) (parentTag : String) (s : ConvState) :
    Element × ConvState :=
  let playlistId := if tname = "" then "playlist" ++ toString trackIndex else tname
  let pos := s.playlists.length
  let s0 := { s with playlists :=
      s.playlists ++ [Element.elem "playlist" [("id", playlistId)] none []] }
  let elementType := if parentTag = "playlist" then "entry" else "track"
  let refE := Element.elem elementType [("producer", playlistId)] none []
  let isAudio := kind = some "Audio"
  let r := assemble_items none items isAudio trackIndex s0
  let finished := Element.elem "playlist" [("id", playlistId)] none r.1
  (refE, { r.2 with playlists := r.2.playlists.set pos finished })

/-- Modelled from the spec: an item's contribution to its track's
duration (`duration()` in the timeline library): clips/gaps their
range's duration, transitions none, a nested stack the longest of its
children. -/
def TItem.dur : TItem → Int
  | .clip c => c.sourceDuration
  | .gap d _ => d
  | .transition _ _ => 0
  | .stack _ cs _ => listMaxDur cs
where
  listMaxDur : List TItem → Int
    | [] => 0
    | x :: xs => max (TItem.dur x) (listMaxDur xs)

/-- Modelled from the spec: a track's duration is the sum of its items'
durations. -/
def trackDuration (t : OtioTrack) : Int :=
  (t.items.map TItem.dur).foldl (· + ·) 0

/-- Modelled from the spec: the duration of the stack of tracks is the
longest track's duration ("the full timeline duration"). -/
def tracksDuration (ts : List OtioTrack) : Int :=
  (ts.map trackDuration).foldl max 0

/-- `create_background_track(tracks, parent)`: a full-length solid,
registered under its id (the order list is appended unconditionally), a
`background` playlist holding one entry over it, and the `track`
element appended to the parent multitrack (returned). -/
def create_background_track (length : Int) (s : ConvState) :
    Element × ConvState :=
  let bg_e := create_solid "black" length
  let s1 :=
    match dictFind s.producersVideo "solid_black" with
    | some _ => s
    | none => { s with producersVideo := s.producersVideo ++ [("solid_black", bg_e)] }
  let s2 := { s1 with producerOrder := s1.producerOrder ++ [(true, "solid_black")] }
  let playlist_e := Element.elem "playlist" [("id", "background")] none
    [create_entry_element bg_e 0 (length - 1)]
  let s3 := { s2 with playlists := s2.playlists ++ [playlist_e] }
  (Element.elem "track" [("producer", "background")] none [], s3)

/-- The indexed loop `for track_index, track in enumerate(tracks)`. -/
def assembleTracks (ts : List OtioTrack) (i : Nat) (s : ConvState) :
    List Element × ConvState :=
  match ts with
  | [] => ([], s)
  | t :: rest =>
      let a := assemble_track t.name t.kind t.items i "multitrack" s
      let r := assembleTracks rest (i + 1) a.2
      (a.1 :: r.1, r.2)

/-- `assemble_timeline(tracks)`: the main tractor with its multitrack,
the background track first, then one slot per input track.  (In Python
the tractor is appended to the global `root` before assembly; `root`'s
children are materialised at output time in `convert`.) -/
def assemble_timeline (tracks : List OtioTrack) (s : ConvState) :
    Element × ConvState :=
  let bg := create_background_track (tracksDuration tracks) s
  let r := assembleTracks tracks 0 bg.2
  let multitrack := Element.elem "multitrack" [("id", "multitrack0")] none
    (bg.1 :: r.1)
  (Element.elem "tractor" [("id", "tractor0")] none [multitrack], r.2)

/-! ## Profile handling and document layout -/

/-- `rate_fraction_from_float(rate)`: whole numbers exactly, then fuzzy
matching of the known NTSC broadcast rates with tolerance `0.004`, else
the exact rational of the value.  Python floats are embedded as the
exact rationals they denote (`Fraction(rate)` is exact). -/
def rate_fraction_from_float (rate : ℚ) : ℚ :=
  if rate.den = 1 then rate
  else if |rate - 24000 / 1001| < 4 / 1000 then 24000 / 1001
  else if |rate - 30000 / 1001| < 4 / 1000 then 30000 / 1001
  else if |rate - 60000 / 1001| < 4 / 1000 then 60000 / 1001
  else rate

/-- `create_profile_element()` (the `decsription` typo is the
source's). -/
def create_profile_element : Element :=
  .elem "profile" [("decsription", "automatic")] none []

/-- `profile_element.attrib.update(profile_data)` for a key/value
mapping. -/
def update_profile_with_dict (profile : Element) (pd : List (String × String)) :
    Element :=
  .elem profile.tag (pd.foldl (fun a kv => attrsSet a kv.1 kv.2) profile.attrs)
    profile.txt profile.children

/-- `update_profile_element(profile_element, profile_data)` for a
`RationalTime`: the frame-rate fraction is written as
`frame_rate_den` / `frame_rate_num` attributes. -/
def update_profile_with_time (profile : Element) (t : RTime) : Element :=
  let fractional := rate_fraction_from_float t.rate
  update_profile_with_dict profile
    [("frame_rate_den", toString fractional.den),
     ("frame_rate_num", toString fractional.num)]

/-- Python `list.insert(-1, x)`: insert `x` just before the last
element (or as sole element of an empty list). -/
def insertBeforeLast (l : List α) (x : α) : List α :=
  l.take (l.length - 1) ++ x :: l.drop (l.length - 1)

/-- Resolve the `producer_order_` handles against the namespace
dictionaries: in Python the list holds the very objects the dicts hold,
mutated in place, so each entry denotes the dictionary's final value. -/
def resolveOrder (s : ConvState) : List Element :=
  s.producerOrder.filterMap
    (fun h => dictFind (if h.1 then s.producersVideo else s.producersAudio) h.2)

/-- The wrapping of a bare `Clip`:
`Track()` (default name empty, default kind Video) holding the clip,
inside a fresh `Stack`. -/
def wrapClip (c : ClipData) : OtioTrack :=
  { name := "", kind := some "Video", items := [.clip c] }

/-- The error message of the final `else` branch of
`write_to_string`. -/
def invalidInputMsg (typeName : String) : String :=
  "Passed OTIO item must be Timeline, Track, Stack or Clip. Not " ++ typeName

/-- The body of `write_to_string` up to (and excluding) the textual
rendering: dispatch on the input type, assemble, and lay out the root's
children (`root.insert(0, producer)` per producer, `insert(-1, ...)`
for transitions and playlists, `insert(0, profile)`).  Returns the root
element together with the final ambient state. -/
def convert (input : OtioInput) (profileData : List (String × String))
    (s : ConvState) : Except String (Element × ConvState) :=
  let profile_e := create_profile_element
  let profile_e :=
    if profileData = [] then profile_e
    else update_profile_with_dict profile_e profileData
  let assembleWith : Element → List OtioTrack → Element × ConvState :=
    fun prof tracks =>
      let at_ := assemble_timeline tracks s
      let tractor := at_.1
      let s1 := at_.2
      let children0 : List Element := [tractor]
      let children1 := (resolveOrder s1).foldl (fun acc p => p :: acc) children0
      let children2 := s1.transitions.foldl insertBeforeLast children1
      let children3 := s1.playlists.foldl insertBeforeLast children2
      (Element.elem "mlt" [] none (prof :: children3), s1)
  match input with
  | .timeline gst tracks =>
      let profile_e := match gst with
        | some t => update_profile_with_time profile_e t
        | none => profile_e
      .ok (assembleWith profile_e tracks)
  | .track t => .ok (assembleWith profile_e [t])
  | .stack tracks => .ok (assembleWith profile_e tracks)
  | .clip c => .ok (assembleWith profile_e [wrapClip c])
  | .other typeName => .error (invalidInputMsg typeName)

/-- Models the `minidom` pretty rendering: a deterministic textual
serialisation of the element tree (same tree, same string). -/
def renderAttrs (a : List (String × String)) : String :=
  a.foldl (fun acc kv => acc ++ " " ++ kv.1 ++ "=\"" ++ kv.2 ++ "\"") ""

mutual

def renderElement (ind : String) : Element → String
  | .elem t a x cs =>
      ind ++ "<" ++ t ++ renderAttrs a ++ ">"
        ++ (match x with | some v => v | none => "")
        ++ renderChildren (ind ++ "    ") cs
        ++ "</" ++ t ++ ">\n"

def renderChildren (ind : String) : List Element → String
  | [] => ""
  | c :: cs => "\n" ++ renderElement ind c ++ renderChildren ind cs

end

/-- `write_to_string(input_otio, **profile_data)`: the rendered
document, or the `ValueError` message for an unsupported input. -/
def write_to_string (input : OtioInput) (profileData : List (String × String))
    (s : ConvState) : Except String String :=
  (convert input profileData s).map (fun r => renderElement "" r.1)

instance : Inhabited Element := ⟨.elem "" [] none []⟩

/-! ## Concrete example data used by counterexamples and witnesses -/

/-- `Clip(name="A", range=[0,10))` with no media. -/
def exClipA : ClipData :=
  { name := "A", sourceStart := 0, sourceDuration := 10,
    mediaRef := .missing, effects := [] }

/-- `Clip(name="B", range=[5,15))` with no media. -/
def exClipB : ClipData :=
  { name := "B", sourceStart := 5, sourceDuration := 10,
    mediaRef := .missing, effects := [] }

/-- A single video track holding the two clips. -/
def exTrack : OtioTrack :=
  { name := "", kind := some "Video", items := [.clip exClipA, .clip exClipB] }

/-- A timeline with that one track. -/
def exTl : OtioInput := .timeline none [exTrack]

/-- A clip with an external media reference, for the effect claims. -/
def mClip : ClipData :=
  { name := "A", sourceStart := 2, sourceDuration := 8,
    mediaRef := .external "amov" "file-a.mov", effects := [] }

/-- The state after registering `mClip`'s producer. -/
def mState : ConvState := (get_producer (.clipS mClip) true initMltState).2

/-- The entry element referencing `mClip`'s producer. -/
def mEntry : Element :=
  create_entry_element (get_producer (.clipS mClip) true initMltState).1 2 9

/-! ## C1 — transition geometry -/

/-- C1 (counterexample): for the dissolve `Transition(in=3, out=3)`
between clips A and B, the claim demands the tractor's `out` attribute
to be `I + O - 2 = 4`; the code produces
`transition.duration() - 1 = I + O - 1 = 5`. -/
theorem C1_counterexample :
    (create_transition (expand_pre (some (.clip exClipA)) 3 3) 3 3
        (expand_post (some (.clip exClipB)) 3 3) "transition_tractor0"
        initMltState).1.getAttr "out" = some "5" ∧
    ¬ ((create_transition (expand_pre (some (.clip exClipA)) 3 3) 3 3
        (expand_post (some (.clip exClipB)) 3 3) "transition_tractor0"
        initMltState).1.getAttr "out" = some (toString ((3 : Int) + 3 - 2))) := by
  constructor
  · rfl
  · decide

/-- C1 (amended): for a dissolve with in-offset I and out-offset O
(both nonzero) between two clips, the tractor's `out` attribute equals
`I + O - 1` (not `I + O - 2`), and each of the two track slots spans
`out - in = I + O - 1` (its leg carries the `I + O` overlap frames of
its clip). -/
theorem C1_transition_geometry (a b : ClipData) (I O : Int) (name : String)
    (s : ConvState) (hI : 0 < I) (hO : 0 < O) :
    ((create_transition (expand_pre (some (.clip a)) I O) I O
        (expand_post (some (.clip b)) I O) name s).1.getAttr "out"
      = some (toString (I + O - 1))) ∧
    ∃ ai bi : Int,
      ai = a.sourceStart + a.sourceDuration - I ∧
      bi = b.sourceStart - I ∧
      (((create_transition (expand_pre (some (.clip a)) I O) I O
          (expand_post (some (.clip b)) I O) name s).1.children.map
            (fun e => (e.getAttr "in", e.getAttr "out"))).take 2
        = [(some (toString ai), some (toString (ai + (I + O) - 1))),
           (some (toString bi), some (toString (bi + (I + O) - 1)))]) :=
  ⟨rfl, a.sourceStart + a.sourceDuration - I, b.sourceStart - I, rfl, rfl, rfl⟩

/-- C1 witness: the amended geometry at the concrete dissolve
`I = O = 3` between A and B. -/
theorem C1_transition_geometry_witness :
    (0 : Int) < 3 ∧
    ((create_transition (expand_pre (some (.clip exClipA)) 3 3) 3 3
        (expand_post (some (.clip exClipB)) 3 3) "transition_tractor0"
        initMltState).1.getAttr "out" = some (toString ((3 : Int) + 3 - 1))) :=
  ⟨by norm_num,
   (C1_transition_geometry exClipA exClipB 3 3 "transition_tractor0"
      initMltState (by norm_num) (by norm_num)).1⟩

/-! ## Dictionary lemmas -/

theorem dictFind_eq_none_iff (d : List (String × Element)) (k : String) :
    dictFind d k = none ↔ ∀ p ∈ d, p.1 ≠ k := by
  simp [dictFind, List.find?_eq_none]

theorem dictFind_append_self (d : List (String × Element)) (k : String)
    (v : Element) (h : dictFind d k = none) :
    dictFind (d ++ [(k, v)]) k = some v := by
  unfold dictFind at h ⊢
  rw [List.find?_append]
  rw [Option.map_eq_none'] at h
  rw [h]
  simp [List.find?]

theorem dictFind_append_left (d d' : List (String × Element)) (k : String)
    (v : Element) (h : dictFind d k = some v) :
    dictFind (d ++ d') k = some v := by
  unfold dictFind at h ⊢
  rw [List.find?_append]
  rcases ho : List.find? (fun p => decide (p.1 = k)) d with _ | p
  · rw [ho] at h
    simp at h
  · rw [ho] at h ⊢
    exact h

theorem dictSet_append (d : List (String × Element)) (k : String)
    (v w : Element) (h : dictFind d k = none) :
    dictSet (d ++ [(k, v)]) k w = d ++ [(k, w)] := by
  have hall := (dictFind_eq_none_iff d k).mp h
  induction d with
  | nil => simp [dictSet]
  | cons p rest ih =>
      have hp : p.1 ≠ k := hall p (by simp)
      have : dictSet (rest ++ [(k, v)]) k w = rest ++ [(k, w)] := by
        apply ih
        · rw [dictFind_eq_none_iff]
          intro q hq
          exact hall q (by simp [hq])
        · intro q hq
          exact hall q (by simp [hq])
      simpa [dictSet, hp] using this

/-! ## C2 — fill deduplication -/

/-- The first `get_producer` on a gap in a state with no registered
solid: a fresh `solid_black` producer of the gap's length is created,
registered and (if absent) appended to the order list. -/
theorem get_producer_gap_fresh (d : Int) (s : ConvState)
    (h : dictFind s.producersVideo "solid_black" = none) :
    get_producer (.gapS d) true s =
      (create_solid "black" d,
       { s with
          producersVideo :=
            s.producersVideo ++ [("solid_black", create_solid "black" d)],
          producerOrder :=
            if (true, "solid_black") ∈ s.producerOrder then s.producerOrder
            else s.producerOrder ++ [(true, "solid_black")] }) := by
  simp only [get_producer, get_producer_tail, ConvState.subDict, ConvState.setSubDict, if_true, h]
  simp only [create_solid, create_property_element, Element.findResource,
    Element.getAttr, Element.tag, Element.txt, Element.children, Element.attrs,
    List.find?, Option.getD]
  rw [dictSet_append _ _ _ _ h]
  simp
  split <;> rfl

/-- The second `get_producer` on a gap (of any length) after the first:
it resolves to the very producer created by the first call and leaves
the state untouched. -/
theorem get_producer_gap_second (d1 d2 : Int) (s : ConvState)
    (h : dictFind s.producersVideo "solid_black" = none) :
    get_producer (.gapS d2) true (get_producer (.gapS d1) true s).2
      = ((get_producer (.gapS d1) true s).1, (get_producer (.gapS d1) true s).2) := by
  rw [get_producer_gap_fresh d1 s h]
  have hfind :
      dictFind (s.producersVideo ++ [("solid_black", create_solid "black" d1)])
        "solid_black" = some (create_solid "black" d1) :=
    dictFind_append_self _ _ _ h
  have hset :
      dictSet (s.producersVideo ++ [("solid_black", create_solid "black" d1)])
        "solid_black" (create_solid "black" d1)
      = s.producersVideo ++ [("solid_black", create_solid "black" d1)] :=
    dictSet_append _ _ _ _ h
  by_cases hm : (true, "solid_black") ∈ s.producerOrder <;>
  · simp only [get_producer, get_producer_tail, ConvState.subDict, ConvState.setSubDict, if_true, hm,
      if_pos, if_neg, hfind]
    simp [create_solid, create_property_element, Element.findResource,
      Element.getAttr, Element.tag, Element.txt, Element.children, Element.attrs,
      List.find?, hm] at hfind hset ⊢
    exact hset

/-- C2 (counterexample): the claim says two fills of the same color but
different lengths resolve to distinct Source nodes; in the code the
deduplication key is `solid_<color>` alone, so a gap of length 10
resolves to the very solid created for a gap of length 5 (its `out`
still `4`), and no second producer is registered. -/
theorem C2_counterexample :
    (get_producer (.gapS 10) true
        (get_producer (.gapS 5) true initMltState).2).1
      = (get_producer (.gapS 5) true initMltState).1 ∧
    (get_producer (.gapS 10) true
        (get_producer (.gapS 5) true initMltState).2).1.getAttr "out" = some "4" ∧
    (get_producer (.gapS 10) true
        (get_producer (.gapS 5) true initMltState).2).2.producersVideo.length = 1 := by
  refine ⟨rfl, rfl, rfl⟩

/-- C2 (amended): the deduplication identifier of a fill is derived
from the color alone (`solid_<color>`); two fills of the same color
share one Source node regardless of length — the second lookup returns
the first fill's node unchanged (keeping the first length) and changes
nothing in the state. -/
theorem C2_fill_dedup (d1 d2 : Int) (s : ConvState)
    (h : dictFind s.producersVideo "solid_black" = none) :
    (get_producer (.gapS d2) true (get_producer (.gapS d1) true s).2).1
      = (get_producer (.gapS d1) true s).1 ∧
    (get_producer (.gapS d1) true s).1 = create_solid "black" d1 ∧
    (get_producer (.gapS d2) true (get_producer (.gapS d1) true s).2).2
      = (get_producer (.gapS d1) true s).2 :=
  ⟨congrArg Prod.fst (get_producer_gap_second d1 d2 s h),
   congrArg Prod.fst (get_producer_gap_fresh d1 s h),
   congrArg Prod.snd (get_producer_gap_second d1 d2 s h)⟩

/-- C2 witness: the amended statement at lengths 5 and 10 from a fresh
state. -/
theorem C2_fill_dedup_witness :
    dictFind initMltState.producersVideo "solid_black" = none ∧
    (get_producer (.gapS 10) true (get_producer (.gapS 5) true initMltState).2).1
      = (get_producer (.gapS 5) true initMltState).1 :=
  ⟨rfl, (C2_fill_dedup 5 10 initMltState rfl).1⟩

/-! ## C4 — input contract -/

/-- C4: the entry point accepts exactly Timeline, Track, Stack and
Clip (conversion always succeeds for them); a bare Track converts
exactly like the single-track Stack wrapping it and a bare Clip like
the Stack holding the synthetic track around it; any other input fails
with the `InvalidInput` `ValueError` — the error is returned instead of
a document, with the ambient state untouched (nothing emitted). -/
theorem C4_input_contract (pd : List (String × String)) (s : ConvState) :
    (∀ gst ts, ∃ r, convert (.timeline gst ts) pd s = .ok r) ∧
    (∀ t, ∃ r, convert (.track t) pd s = .ok r) ∧
    (∀ ts, ∃ r, convert (.stack ts) pd s = .ok r) ∧
    (∀ c, ∃ r, convert (.clip c) pd s = .ok r) ∧
    (∀ t, convert (.track t) pd s = convert (.stack [t]) pd s) ∧
    (∀ c, convert (.clip c) pd s = convert (.stack [wrapClip c]) pd s) ∧
    (∀ typeName, convert (.other typeName) pd s
        = .error (invalidInputMsg typeName)) :=
  ⟨fun _ _ => ⟨_, rfl⟩, fun _ => ⟨_, rfl⟩, fun _ => ⟨_, rfl⟩, fun _ => ⟨_, rfl⟩,
   fun _ => rfl, fun _ => rfl, fun _ => rfl⟩

/-! ## C9 — determinism -/

/-- C9: two conversions of the same timeline, each run with a fresh
conversion context (the module-level registries and collections of a
freshly imported module), produce byte-identical output strings. -/
theorem C9_determinism (input : OtioInput) (pd : List (String × String))
    (s1 s2 : ConvState) (h1 : s1 = initMltState) (h2 : s2 = initMltState) :
    write_to_string input pd s1 = write_to_string input pd s2 := by
  subst h1
  subst h2
  rfl

/-- C9 witness: the two-clip timeline converted twice from fresh
state. -/
theorem C9_determinism_witness :
    write_to_string exTl [] initMltState = write_to_string exTl [] initMltState :=
  C9_determinism exTl [] initMltState initMltState rfl rfl

/-! ## C8 — frame-rate fraction -/

/-- The table of known broadcast rates checked by
`rate_fraction_from_float`. -/
def NTSC_RATES : List ℚ := [24000 / 1001, 30000 / 1001, 60000 / 1001]

/-- No integer-valued rational lies within the 0.004 tolerance of a
broadcast rate. -/
theorem ntsc_not_integer (rate n : ℚ) (hn : n ∈ NTSC_RATES)
    (h : |rate - n| < 4 / 1000) : rate.den ≠ 1 := by
  intro hden
  have hr : (rate.num : ℚ) = rate := by
    rw [← Rat.num_div_den rate, hden]
    norm_num
  rw [abs_sub_lt_iff] at h
  simp only [NTSC_RATES, List.mem_cons, List.not_mem_nil, or_false] at hn
  rcases hn with hn | hn | hn <;> subst hn
  · have h24 : rate.num = 24 := by
      have hlo : (23 : ℚ) < rate.num := by rw [hr]; linarith
      have hhi : (rate.num : ℚ) < 25 := by rw [hr]; linarith
      have hlo' : (23 : ℤ) < rate.num := by exact_mod_cast hlo
      have hhi' : rate.num < (25 : ℤ) := by exact_mod_cast hhi
      omega
    rw [← hr, h24] at h
    norm_num at h
  · have h30 : rate.num = 30 := by
      have hlo : (29 : ℚ) < rate.num := by rw [hr]; linarith
      have hhi : (rate.num : ℚ) < 31 := by rw [hr]; linarith
      have hlo' : (29 : ℤ) < rate.num := by exact_mod_cast hlo
      have hhi' : rate.num < (31 : ℤ) := by exact_mod_cast hhi
      omega
    rw [← hr, h30] at h
    norm_num at h
  · have h60 : rate.num = 60 := by
      have hlo : (59 : ℚ) < rate.num := by rw [hr]; linarith
      have hhi : (rate.num : ℚ) < 61 := by rw [hr]; linarith
      have hlo' : (59 : ℤ) < rate.num := by exact_mod_cast hlo
      have hhi' : rate.num < (61 : ℤ) := by exact_mod_cast hhi
      omega
    rw [← hr, h60] at h
    norm_num at h

/-- C8: the frame-rate derivation returns the exact fraction for every
integer-valued rate; a rate within the 0.004 tolerance of a broadcast
rate returns that broadcast fraction; every other rate returns the
exact rational of the input value. -/
theorem C8_rate_fraction :
    (∀ rate : ℚ, rate.den = 1 → rate_fraction_from_float rate = rate) ∧
    (∀ rate n : ℚ, n ∈ NTSC_RATES → |rate - n| < 4 / 1000 →
      rate_fraction_from_float rate = n) ∧
    (∀ rate : ℚ, rate.den ≠ 1 →
      (∀ n ∈ NTSC_RATES, ¬ (|rate - n| < 4 / 1000)) →
      rate_fraction_from_float rate = rate) := by
  refine ⟨?_, ?_, ?_⟩
  · intro rate h
    simp [rate_fraction_from_float, h]
  · intro rate n hn h
    have hden := ntsc_not_integer rate n hn h
    simp only [NTSC_RATES, List.mem_cons, List.not_mem_nil, or_false] at hn
    have habs := h
    rcases hn with hn | hn | hn <;> subst hn
    · rw [rate_fraction_from_float, if_neg hden, if_pos h]
    · have h1 : ¬ (|rate - 24000 / 1001| < 4 / 1000) := by
        rw [abs_sub_lt_iff] at habs ⊢
        intro hc
        linarith [habs.1, habs.2, hc.1, hc.2]
      rw [rate_fraction_from_float, if_neg hden, if_neg h1, if_pos h]
    · have h1 : ¬ (|rate - 24000 / 1001| < 4 / 1000) := by
        rw [abs_sub_lt_iff] at habs ⊢
        intro hc
        linarith [habs.1, habs.2, hc.1, hc.2]
      have h2 : ¬ (|rate - 30000 / 1001| < 4 / 1000) := by
        rw [abs_sub_lt_iff] at habs ⊢
        intro hc
        linarith [habs.1, habs.2, hc.1, hc.2]
      rw [rate_fraction_from_float, if_neg hden, if_neg h1, if_neg h2, if_pos h]
  · intro rate hden hno
    rw [rate_fraction_from_float, if_neg hden,
      if_neg (hno _ (by simp [NTSC_RATES])),
      if_neg (hno _ (by simp [NTSC_RATES])),
      if_neg (hno _ (by simp [NTSC_RATES]))]

/-- C8 witness: `23.976` (the float `2997/125`) is within tolerance of
`24000/1001` and maps to it. -/
theorem C8_rate_fraction_witness :
    (24000 / 1001 : ℚ) ∈ NTSC_RATES ∧
    |(2997 / 125 : ℚ) - 24000 / 1001| < 4 / 1000 ∧
    rate_fraction_from_float (2997 / 125) = 24000 / 1001 := by
  refine ⟨by simp [NTSC_RATES], by rw [abs_sub_lt_iff]; constructor <;> norm_num, ?_⟩
  exact C8_rate_fraction.2.1 (2997 / 125) (24000 / 1001) (by simp [NTSC_RATES])
    (by rw [abs_sub_lt_iff]; constructor <;> norm_num)

/-! ## Attribute and registry lemmas for the effect claims -/

theorem dictFind_append_ne (d : List (String × Element)) (k k' : String)
    (v : Element) (h : k ≠ k') :
    dictFind (d ++ [(k', v)]) k = dictFind d k := by
  unfold dictFind
  rw [List.find?_append]
  rcases ho : List.find? (fun p => decide (p.1 = k)) d with _ | p
  · simp [List.find?, Ne.symm h]
  · rw [ho]
    rfl

theorem find_attrsSet (a : List (String × String)) (k v : String) :
    (attrsSet a k v).find? (fun p => p.1 = k) = some (k, v) := by
  unfold attrsSet
  by_cases h : a.any (fun p => p.1 = k)
  · rw [if_pos h]
    induction a with
    | nil => simp at h
    | cons p rest ih =>
        by_cases hp : p.1 = k
        · simp [List.find?, hp]
        · have hrest : rest.any (fun p => decide (p.1 = k)) := by
            simpa [List.any_cons, hp] using h
          simpa [List.find?, hp] using ih hrest
  · rw [if_neg h]
    rw [List.find?_append]
    have hnone : a.find? (fun p => decide (p.1 = k)) = none := by
      rw [List.find?_eq_none]
      intro x hx
      simp only [List.any_eq_true] at h
      simpa using fun hc => h ⟨x, hx, by simpa using hc⟩
    rw [hnone]
    simp [List.find?]

theorem getAttr_setAttr_self (e : Element) (k v : String) :
    (e.setAttr k v).getAttr k = some v := by
  cases e with
  | elem t a x cs =>
      simp [Element.setAttr, Element.getAttr, Element.attrs, find_attrsSet]

theorem attrsSet_idem (a : List (String × String)) (k v : String) :
    attrsSet (attrsSet a k v) k v = attrsSet a k v := by
  have hmem : (attrsSet a k v).any (fun p => p.1 = k) := by
    have hm := List.mem_of_find?_eq_some (find_attrsSet a k v)
    simp only [List.any_eq_true]
    exact ⟨(k, v), hm, by simp⟩
  conv_lhs => rw [attrsSet]
  rw [if_pos hmem]
  unfold attrsSet
  by_cases h : a.any (fun p => p.1 = k)
  · simp only [if_pos h]
    rw [List.map_map]
    apply List.map_congr_left
    intro p hp
    by_cases hpk : p.1 = k <;> simp [Function.comp, hpk]
  · simp only [if_neg h]
    rw [List.map_append]
    have ha : a.map (fun p => if p.1 = k then (k, v) else p) = a := by
      conv_rhs => rw [← List.map_id a]
      apply List.map_congr_left
      intro p hp
      have hpk : p.1 ≠ k := by
        simp only [List.any_eq_true] at h
        intro hc
        exact h ⟨p, hp, by simp [hc]⟩
      simp [hpk]
    rw [ha]
    simp

theorem setAttr_setAttr_same (e : Element) (k v : String) :
    (e.setAttr k v).setAttr k v = e.setAttr k v := by
  cases e with
  | elem t a x cs =>
      simp [Element.setAttr, Element.attrs, Element.tag, Element.txt,
        Element.children, attrsSet_idem]

theorem append_left_ne (a b : String) (h : a.length ≠ 0) : a ++ b ≠ b := by
  intro heq
  have hl := congrArg String.length heq
  rw [String.length_append] at hl
  omega

theorem append_right_ne (a b : String) (h : b.length ≠ 0) : a ++ b ≠ a := by
  intro heq
  have hl := congrArg String.length heq
  rw [String.length_append] at hl
  omega

/-- When an item's producer is registered with a non-`black` resource,
`get_producer` is a pure lookup: it returns the registered element and
leaves the state untouched. -/
theorem get_producer_lookup (it : SItem) (s : ConvState) (P pe : Element)
    (h1 : dictFind s.producersVideo (gpId it) = some P)
    (h2 : P.findResource = some pe) (h3 : ¬ pe.txt = some "black") :
    get_producer it true s = (P, s) := by
  have h3' : decide (pe.txt = some "black") = false := decide_eq_false h3
  cases it with
  | gapS d =>
      simp only [gpId] at h1
      simp only [get_producer, get_producer_tail, ConvState.subDict, if_true, h1, Option.getD]
      simp [h2, h3']
  | clipS c =>
      rcases c with ⟨nm, ss, sd, mr, ef⟩
      cases mr with
      | missing =>
          simp only [gpId] at h1
          simp only [get_producer, get_producer_tail, ConvState.subDict, if_true, h1, Option.getD]
          simp [h2, h3']
      | external n url =>
          simp only [gpId] at h1
          simp only [get_producer, get_producer_tail, ConvState.subDict, if_true, h1, Option.getD]
          simp [h2, h3']
      | imageSequence n tpl pad sf =>
          simp only [gpId] at h1
          simp only [get_producer, get_producer_tail, ConvState.subDict, if_true, h1, Option.getD]
          simp [h2, h3']

/-- One `apply_timewarp` with a `LinearTimeWarp` on an entry whose
producer attribute is `b`: the entry is repointed at `str(k) ++ ":" ++ b`
and the clone of the item's producer is registered under that id unless
it already exists. -/
theorem apply_ltw_step (it : SItem) (e P pe : Element) (k : Int)
    (s : ConvState) (b : String)
    (h1 : dictFind s.producersVideo (gpId it) = some P)
    (h2 : P.findResource = some pe) (h3 : ¬ pe.txt = some "black")
    (h5 : e.getAttr "producer" = some b) :
    apply_timewarp it (some e) (.linearTimeWarp k) s =
      (some (e.setAttr "producer" (toString k ++ ":" ++ b)),
       if (dictFind s.producersVideo (toString k ++ ":" ++ b)).isSome then s
       else { s with
          producersVideo := s.producersVideo ++
            [(toString k ++ ":" ++ b,
              ((P.setAttr "id" (toString k ++ ":" ++ b)).appendChild
                (create_property_element "mlt_service" (some "timewarp"))).setResourceText
                (fun t => some (toString k ++ ":" ++ t.getD "")))],
          producerOrder := s.producerOrder ++ [(true, toString k ++ ":" ++ b)] }) := by
  simp only [apply_timewarp, get_producer_lookup it s P pe h1 h2 h3, h5, Option.getD]

/-- One `apply_timewarp` with a `FreezeFrame` on an entry: the item's
producer (registered with id `g`) is cloned under
`g ++ "_freeze" ++ str(start)`. -/
theorem apply_freeze_step (it : SItem) (e P pe : Element) (s : ConvState)
    (g : String)
    (h1 : dictFind s.producersVideo (gpId it) = some P)
    (h2 : P.findResource = some pe) (h3 : ¬ pe.txt = some "black")
    (h4 : P.getAttr "id" = some g) :
    apply_timewarp it (some e) .freezeFrame s =
      (some (e.setAttr "producer" (g ++ "_freeze" ++ toString it.sourceStart)),
       if (dictFind s.producersVideo
            (g ++ "_freeze" ++ toString it.sourceStart)).isSome then s
       else { s with
          producersVideo := s.producersVideo ++
            [(g ++ "_freeze" ++ toString it.sourceStart,
              ((P.setAttr "id" (g ++ "_freeze" ++ toString it.sourceStart)).appendChild
                (create_property_element "mlt_service" (some "hold"))).appendChild
                (create_property_element "frame" (some (toString it.sourceStart))))],
          producerOrder := s.producerOrder ++
            [(true, g ++ "_freeze" ++ toString it.sourceStart)] }) := by
  simp only [apply_timewarp, get_producer_lookup it s P pe h1 h2 h3, h4, Option.getD]

/-! ## C5 — effect clone isolation -/

/-- C5: applying a `LinearTimeWarp` or `FreezeFrame` to an Entry
referencing a shared Source leaves the original Source untouched in the
registry (any other Entry referencing it is unaffected), repoints only
that Entry at a new identifier different from the original's, and — when
the identifier is fresh — registers a full clone carrying the new id,
distinct from the original node. -/
theorem C5_effect_clone_isolation (it : SItem) (e P pe : Element) (k : Int)
    (s : ConvState)
    (h1 : dictFind s.producersVideo (gpId it) = some P)
    (h2 : P.findResource = some pe) (h3 : ¬ pe.txt = some "black")
    (h4 : P.getAttr "id" = some (gpId it))
    (h5 : e.getAttr "producer" = some (gpId it)) :
    (dictFind (apply_timewarp it (some e) (.linearTimeWarp k) s).2.producersVideo
        (gpId it) = some P ∧
     toString k ++ ":" ++ gpId it ≠ gpId it ∧
     (apply_timewarp it (some e) (.linearTimeWarp k) s).1
        = some (e.setAttr "producer" (toString k ++ ":" ++ gpId it)) ∧
     (dictFind s.producersVideo (toString k ++ ":" ++ gpId it) = none →
       ∃ cl, dictFind
           (apply_timewarp it (some e) (.linearTimeWarp k) s).2.producersVideo
           (toString k ++ ":" ++ gpId it) = some cl ∧
         cl.getAttr "id" = some (toString k ++ ":" ++ gpId it) ∧ cl ≠ P)) ∧
    (dictFind (apply_timewarp it (some e) .freezeFrame s).2.producersVideo
        (gpId it) = some P ∧
     gpId it ++ "_freeze" ++ toString it.sourceStart ≠ gpId it ∧
     (apply_timewarp it (some e) .freezeFrame s).1
        = some (e.setAttr "producer"
            (gpId it ++ "_freeze" ++ toString it.sourceStart))) := by
  have hkne : toString k ++ ":" ++ gpId it ≠ gpId it := by
    apply append_left_ne
    rw [String.length_append]
    have : (":" : String).length = 1 := rfl
    omega
  have hfne : gpId it ++ "_freeze" ++ toString it.sourceStart ≠ gpId it := by
    rw [String.append_assoc]
    apply append_right_ne
    rw [String.length_append]
    have : ("_freeze" : String).length = 7 := rfl
    omega
  refine ⟨⟨?_, hkne, ?_, ?_⟩, ⟨?_, hfne, ?_⟩⟩
  · rw [apply_ltw_step it e P pe k s (gpId it) h1 h2 h3 h5]
    by_cases hc : (dictFind s.producersVideo (toString k ++ ":" ++ gpId it)).isSome
    · simp only [if_pos hc]
      exact h1
    · simp only [if_neg hc]
      simpa using (dictFind_append_ne _ _ _ _ hkne.symm ▸ h1 :)
  · rw [apply_ltw_step it e P pe k s (gpId it) h1 h2 h3 h5]
  · intro hnone
    rw [apply_ltw_step it e P pe k s (gpId it) h1 h2 h3 h5]
    rw [if_neg (by simp [hnone])]
    refine ⟨_, dictFind_append_self _ _ _ hnone, ?_, ?_⟩
    · show (((P.setAttr "id" _).appendChild _).setResourceText _).getAttr "id" = _
      have hres : ∀ f (q : Element), (q.setResourceText f).getAttr "id" = q.getAttr "id" :=
        fun f q => rfl
      have happ : ∀ (c q : Element), (q.appendChild c).getAttr "id" = q.getAttr "id" :=
        fun c q => rfl
      rw [hres, happ, getAttr_setAttr_self]
    · intro hcl
      have hid := congrArg (fun q => Element.getAttr q "id") hcl
      simp only at hid
      have hres : ∀ f (q : Element), (q.setResourceText f).getAttr "id" = q.getAttr "id" :=
        fun f q => rfl
      have happ : ∀ (c q : Element), (q.appendChild c).getAttr "id" = q.getAttr "id" :=
        fun c q => rfl
      rw [hres, happ, getAttr_setAttr_self, h4] at hid
      exact hkne (by injection hid)
  · rw [apply_freeze_step it e P pe s (gpId it) h1 h2 h3 h4]
    by_cases hc : (dictFind s.producersVideo
        (gpId it ++ "_freeze" ++ toString it.sourceStart)).isSome
    · simp only [if_pos hc]
      exact h1
    · simp only [if_neg hc]
      simpa using (dictFind_append_ne _ _ _ _ hfne.symm ▸ h1 :)
  · rw [apply_freeze_step it e P pe s (gpId it) h1 h2 h3 h4]

/-! ## C6 — effect reapplication -/

/-- C6 (counterexample): applying the same `LinearTimeWarp` twice to
the same Entry is **not** idempotent: the identifier is computed from
the Entry's current producer attribute, so the second application
registers a second clone `2:2:amov` and repoints the Entry at it — two
new Sources on the creation-order list, not at most one. -/
theorem C6_counterexample :
    (apply_timewarp (.clipS mClip)
        (apply_timewarp (.clipS mClip) (some mEntry) (.linearTimeWarp 2) mState).1
        (.linearTimeWarp 2)
        (apply_timewarp (.clipS mClip) (some mEntry)
          (.linearTimeWarp 2) mState).2).2.producerOrder.length
      = mState.producerOrder.length + 2 ∧
    ((apply_timewarp (.clipS mClip)
        (apply_timewarp (.clipS mClip) (some mEntry) (.linearTimeWarp 2) mState).1
        (.linearTimeWarp 2)
        (apply_timewarp (.clipS mClip) (some mEntry)
          (.linearTimeWarp 2) mState).2).1.map
        (fun e => e.getAttr "producer"))
      = some (some "2:2:amov") ∧
    ((apply_timewarp (.clipS mClip) (some mEntry)
        (.linearTimeWarp 2) mState).1.map (fun e => e.getAttr "producer"))
      = some (some "2:amov") :=
  ⟨rfl, rfl, rfl⟩

/-- C6 (amended): reuse triggers exactly when the computed identifier
already exists.  For `FreezeFrame` the identifier is recomputed from
the base producer's id, so a second application changes nothing
(idempotent).  For `LinearTimeWarp` the identifier is computed from the
Entry's *current* producer attribute, so a second identical application
computes `k:k:base`, registers one further Source and repoints the
Entry at it. -/
theorem C6_effect_reapplication (it : SItem) (e P pe : Element) (k : Int)
    (s : ConvState)
    (h1 : dictFind s.producersVideo (gpId it) = some P)
    (h2 : P.findResource = some pe) (h3 : ¬ pe.txt = some "black")
    (h4 : P.getAttr "id" = some (gpId it))
    (h5 : e.getAttr "producer" = some (gpId it))
    (hf : dictFind s.producersVideo
        (gpId it ++ "_freeze" ++ toString it.sourceStart) = none)
    (hk1 : dictFind s.producersVideo (toString k ++ ":" ++ gpId it) = none)
    (hk2 : dictFind s.producersVideo
        (toString k ++ ":" ++ (toString k ++ ":" ++ gpId it)) = none) :
    (apply_timewarp it (apply_timewarp it (some e) .freezeFrame s).1 .freezeFrame
        (apply_timewarp it (some e) .freezeFrame s).2
      = apply_timewarp it (some e) .freezeFrame s) ∧
    ((apply_timewarp it (some e) (.linearTimeWarp k) s).2.producerOrder
        = s.producerOrder ++ [(true, toString k ++ ":" ++ gpId it)] ∧
     (apply_timewarp it (apply_timewarp it (some e) (.linearTimeWarp k) s).1
         (.linearTimeWarp k)
         (apply_timewarp it (some e) (.linearTimeWarp k) s).2).2.producerOrder
        = s.producerOrder ++ [(true, toString k ++ ":" ++ gpId it),
            (true, toString k ++ ":" ++ (toString k ++ ":" ++ gpId it))] ∧
     (apply_timewarp it (apply_timewarp it (some e) (.linearTimeWarp k) s).1
         (.linearTimeWarp k)
         (apply_timewarp it (some e) (.linearTimeWarp k) s).2).1
        = some ((e.setAttr "producer" (toString k ++ ":" ++ gpId it)).setAttr
            "producer"
            (toString k ++ ":" ++ (toString k ++ ":" ++ gpId it)))) := by
  have hfne : gpId it ++ "_freeze" ++ toString it.sourceStart ≠ gpId it := by
    rw [String.append_assoc]
    apply append_right_ne
    rw [String.length_append]
    have : ("_freeze" : String).length = 7 := rfl
    omega
  have hk1ne : toString k ++ ":" ++ gpId it ≠ gpId it := by
    apply append_left_ne
    rw [String.length_append]
    have : (":" : String).length = 1 := rfl
    omega
  have hk2ne : toString k ++ ":" ++ (toString k ++ ":" ++ gpId it)
      ≠ toString k ++ ":" ++ gpId it := by
    apply append_left_ne
    rw [String.length_append]
    have : (":" : String).length = 1 := rfl
    omega
  refine ⟨?_, ?_, ?_, ?_⟩
  · -- FreezeFrame idempotence
    rw [apply_freeze_step it e P pe s (gpId it) h1 h2 h3 h4]
    rw [if_neg (by simp [hf])]
    rw [apply_freeze_step it _ P pe _ (gpId it)
      (by simpa using (dictFind_append_ne _ _ _ _ (Ne.symm hfne) ▸ h1 :))
      h2 h3 h4]
    rw [if_pos (by simp [dictFind_append_self _ _ _ hf])]
    rw [setAttr_setAttr_same]
  · rw [apply_ltw_step it e P pe k s (gpId it) h1 h2 h3 h5]
    rw [if_neg (by simp [hk1])]
  · rw [apply_ltw_step it e P pe k s (gpId it) h1 h2 h3 h5]
    rw [if_neg (by simp [hk1])]
    rw [apply_ltw_step it _ P pe k _ (toString k ++ ":" ++ gpId it)
      (by simpa using (dictFind_append_ne _ _ _ _ (Ne.symm hk1ne) ▸ h1 :))
      h2 h3 (getAttr_setAttr_self e "producer" _)]
    rw [if_neg (by
      rw [dictFind_append_ne _ _ _ _ hk2ne, hk2]
      simp)]
    simp
  · rw [apply_ltw_step it e P pe k s (gpId it) h1 h2 h3 h5]
    rw [if_neg (by simp [hk1])]
    rw [apply_ltw_step it _ P pe k _ (toString k ++ ":" ++ gpId it)
      (by simpa using (dictFind_append_ne _ _ _ _ (Ne.symm hk1ne) ▸ h1 :))
      h2 h3 (getAttr_setAttr_self e "producer" _)]

/-- The registered producer of `mClip`. -/
def mProducer : Element := (get_producer (.clipS mClip) true initMltState).1

/-- Its `resource` property. -/
def mRes : Element :=
  .elem "property" [("name", "resource")] (some "file-a.mov") []

/-- C5 witness: the isolation theorem applied at `mClip`'s concrete
registry — the base producer is still registered unchanged after a
`LinearTimeWarp` on the entry. -/
theorem C5_effect_clone_isolation_witness :
    dictFind (apply_timewarp (.clipS mClip) (some mEntry)
        (.linearTimeWarp 2) mState).2.producersVideo
      (gpId (.clipS mClip)) = some mProducer :=
  ((C5_effect_clone_isolation (.clipS mClip) mEntry mProducer mRes 2 mState
      rfl rfl (by decide) rfl rfl).1).1

/-- C6 witness: the amended reapplication theorem at `mClip`'s concrete
registry — a second `FreezeFrame` is a no-op. -/
theorem C6_effect_reapplication_witness :
    dictFind mState.producersVideo (gpId (.clipS mClip)) = some mProducer ∧
    (apply_timewarp (.clipS mClip)
        (apply_timewarp (.clipS mClip) (some mEntry) .freezeFrame mState).1
        .freezeFrame
        (apply_timewarp (.clipS mClip) (some mEntry) .freezeFrame mState).2
      = apply_timewarp (.clipS mClip) (some mEntry) .freezeFrame mState) :=
  ⟨rfl, (C6_effect_reapplication (.clipS mClip) mEntry mProducer mRes 2 mState
      rfl rfl (by decide) rfl rfl rfl rfl rfl).1⟩

/-! ## C7 — producers precede their references

The references of the document are the `producer` attributes of
`track` / `entry` elements.  A registered producer is always a
`producer`-tagged element whose children are leaf `property` elements,
so it contains no references; every reference lives in the transition
tractors, the playlists or the root tractor, all of which the layout
places after the producer block. -/

/-- All `producer` attribute values of `track`/`entry` elements in a
subtree. -/
def refsOf : Element → List String
  | .elem t a _ cs =>
      (if t = "track" ∨ t = "entry" then
        a.filterMap (fun p => if p.1 = "producer" then some p.2 else none)
      else []) ++ refsList cs
where
  refsList : List Element → List String
    | [] => []
    | c :: cs => refsOf c ++ refsList cs

/-- The shape of every element held in the producer registries: a
`producer` node whose children are leaf `property` elements. -/
def CleanProducer (e : Element) : Prop :=
  e.tag = "producer" ∧ ∀ c ∈ e.children, c.tag = "property" ∧ c.children = []

/-- The invariant maintained on the conversion state. -/
structure StateWF (s : ConvState) : Prop where
  video : ∀ p ∈ s.producersVideo, CleanProducer p.2 ∧ p.2.getAttr "id" = some p.1
  audio : ∀ p ∈ s.producersAudio, CleanProducer p.2 ∧ p.2.getAttr "id" = some p.1
  trans : ∀ t ∈ s.transitions, t.tag = "tractor"
  plays : ∀ p ∈ s.playlists, p.tag = "playlist"

theorem initMltState_wf : StateWF initMltState := by
  constructor <;> simp [initMltState]

theorem refsList_nil_of_props (cs : List Element)
    (h : ∀ c ∈ cs, c.tag = "property" ∧ c.children = []) :
    refsOf.refsList cs = [] := by
  induction cs with
  | nil => rfl
  | cons c rest ih =>
      have hc := h c (by simp)
      have hr : refsOf.refsList rest = [] := ih (fun c hm => h c (by simp [hm]))
      cases c with
      | elem t a x cc =>
          simp only [Element.tag, Element.children] at hc
          rw [refsOf.refsList, refsOf, hc.1, hc.2]
          simp [hr, refsOf.refsList]

/-- A clean producer contributes no references. -/
theorem refsOf_clean (e : Element) (h : CleanProducer e) : refsOf e = [] := by
  cases e with
  | elem t a x cs =>
      simp only [CleanProducer, Element.tag, Element.children] at h
      rw [refsOf, h.1]
      rw [refsList_nil_of_props cs h.2]
      simp

theorem refsOf_profile (a : List (String × String)) (x : Option String) :
    refsOf (.elem "profile" a x []) = [] := by
  rw [refsOf]
  simp [refsOf.refsList]

theorem cleanProducer_appendChild (e c : Element) (he : CleanProducer e)
    (hc : c.tag = "property" ∧ c.children = []) :
    CleanProducer (e.appendChild c) := by
  cases e with
  | elem t a x cs =>
      refine ⟨he.1, ?_⟩
      intro q hq
      simp only [Element.appendChild, Element.children, Element.attrs,
        Element.tag, Element.txt] at hq ⊢
      rcases List.mem_append.mp hq with hq | hq
      · exact he.2 q hq
      · simp at hq
        subst hq
        exact hc

theorem cleanProducer_setAttr (e : Element) (k v : String)
    (he : CleanProducer e) : CleanProducer (e.setAttr k v) := by
  cases e with
  | elem t a x cs => exact ⟨he.1, he.2⟩

theorem cleanProducer_setResourceText (e : Element) (f : Option String → Option String)
    (he : CleanProducer e) : CleanProducer (e.setResourceText f) := by
  cases e with
  | elem t a x cs =>
      refine ⟨he.1, ?_⟩
      have he2 := he.2
      simp only [Element.children] at he2 ⊢
      simp only [Element.setResourceText]
      have key : ∀ (cs : List Element),
          (∀ c ∈ cs, c.tag = "property" ∧ c.children = []) →
          ∀ q ∈ Element.setResourceText.go f cs,
            q.tag = "property" ∧ q.children = [] := by
        intro cs
        induction cs with
        | nil =>
            intro _ q hq
            simp [Element.setResourceText.go] at hq
        | cons c rest ih =>
            intro hcs q hq
            rw [Element.setResourceText.go.eq_def] at hq
            simp only at hq
            by_cases hcnd :
                (c.tag = "property" && c.getAttr "name" = some "resource") = true
            · rw [if_pos hcnd] at hq
              rcases List.mem_cons.mp hq with hq | hq
              · subst hq
                have hcp := hcs c (by simp)
                cases c with
                | elem ct ca cx ccs =>
                    simp only [Element.tag, Element.children] at hcp ⊢
                    exact hcp
              · exact hcs q (by simp [hq])
            · rw [if_neg hcnd] at hq
              rcases List.mem_cons.mp hq with hq | hq
              · exact hcs q (by simp [hq])
              · exact ih (fun c hm => hcs c (by simp [hm])) q hq
      exact key cs he2

theorem create_solid_clean (color : String) (l : Int) :
    CleanProducer (create_solid color l) ∧
    (create_solid color l).getAttr "id" = some ("solid_" ++ color) := by
  refine ⟨⟨rfl, ?_⟩, rfl⟩
  intro c hc
  simp only [create_solid, create_property_element, Element.children,
    List.mem_cons, List.not_mem_nil, or_false] at hc
  rcases hc with rfl | rfl | rfl | rfl <;> exact ⟨rfl, rfl⟩

theorem dict_ok_insert (d : List (String × Element)) (k : String) (v : Element)
    (hd : ∀ p ∈ d, CleanProducer p.2 ∧ p.2.getAttr "id" = some p.1)
    (hv : CleanProducer v) (hk : v.getAttr "id" = some k) :
    ∀ p ∈ d ++ [(k, v)], CleanProducer p.2 ∧ p.2.getAttr "id" = some p.1 := by
  intro p hp
  rcases List.mem_append.mp hp with hp | hp
  · exact hd p hp
  · simp at hp
    subst hp
    exact ⟨hv, hk⟩

theorem dict_ok_set (d : List (String × Element)) (k : String) (v : Element)
    (hd : ∀ p ∈ d, CleanProducer p.2 ∧ p.2.getAttr "id" = some p.1)
    (hv : CleanProducer v) (hk : v.getAttr "id" = some k) :
    ∀ p ∈ dictSet d k v, CleanProducer p.2 ∧ p.2.getAttr "id" = some p.1 := by
  intro p hp
  rw [dictSet] at hp
  rcases List.mem_map.mp hp with ⟨q, hq, rfl⟩
  by_cases hqk : q.1 = k
  · simp only [if_pos hqk]
    exact ⟨hv, hk⟩
  · simp only [if_neg hqk]
    exact hd q hq

/-- A key present in a dictionary survives `dictSet`. -/
theorem dictFind_dictSet_self (d : List (String × Element)) (k : String)
    (v w : Element) (h : dictFind d k = some v) :
    dictFind (dictSet d k w) k = some w := by
  unfold dictFind at h ⊢
  unfold dictSet
  induction d with
  | nil => simp [List.find?] at h
  | cons p rest ih =>
      by_cases hp : p.1 = k
      · simp [List.find?, hp]
      · rw [List.map_cons]
        simp only [if_neg hp]
        rw [List.find?_cons_of_neg _ (by simpa using hp)] at h
        rw [List.find?_cons_of_neg _ (by simpa using hp)]
        exact ih h

theorem prop_leaf (n : String) (t : Option String) :
    (create_property_element n t).tag = "property" ∧
    (create_property_element n t).children = [] :=
  ⟨rfl, rfl⟩

theorem getAttr_appendChild (e c : Element) (k : String) :
    (e.appendChild c).getAttr k = e.getAttr k := rfl

theorem subDict_setSubDict (s : ConvState) (b : Bool)
    (d' : List (String × Element)) : (s.setSubDict b d').subDict b = d' := by
  cases b <;> rfl

theorem subDict_setOrder (s : ConvState) (b : Bool) (l : List (Bool × String)) :
    ConvState.subDict { s with producerOrder := l } b = s.subDict b := by
  cases b <;> rfl

theorem StateWF.subDict_ok (s : ConvState) (h : StateWF s) (b : Bool) :
    ∀ p ∈ s.subDict b, CleanProducer p.2 ∧ p.2.getAttr "id" = some p.1 := by
  cases b
  · exact h.audio
  · exact h.video

theorem wf_setSubDict (s : ConvState) (b : Bool) (d' : List (String × Element))
    (h : StateWF s)
    (hd' : ∀ p ∈ d', CleanProducer p.2 ∧ p.2.getAttr "id" = some p.1) :
    StateWF (s.setSubDict b d') := by
  cases b
  · exact ⟨h.video, hd', h.trans, h.plays⟩
  · exact ⟨hd', h.audio, h.trans, h.plays⟩

theorem wf_setOrder (s : ConvState) (l : List (Bool × String)) (h : StateWF s) :
    StateWF { s with producerOrder := l } :=
  ⟨h.video, h.audio, h.trans, h.plays⟩

theorem dictFind_ok (d : List (String × Element)) (k : String) (P : Element)
    (hd : ∀ p ∈ d, CleanProducer p.2 ∧ p.2.getAttr "id" = some p.1)
    (hfind : dictFind d k = some P) :
    CleanProducer P ∧ P.getAttr "id" = some k := by
  unfold dictFind at hfind
  rcases hf2 : List.find? (fun p => decide (p.1 = k)) d with _ | pr
  · rw [hf2] at hfind
    simp at hfind
  · rw [hf2] at hfind
    simp only [Option.map_some'] at hfind
    have hkey : pr.1 = k := by simpa using List.find?_some hf2
    have hmem := List.mem_of_find?_eq_some hf2
    have hok := hd pr hmem
    have hP : pr.2 = P := by injection hfind
    rw [← hP, ← hkey]
    exact hok

theorem gp_enter_end (b : Bool) (id_ : String) (Q oldP : Element) (s1 : ConvState)
    (h1 : StateWF s1) (hQ : CleanProducer Q) (hQid : Q.getAttr "id" = some id_)
    (hbind : dictFind (s1.subDict b) id_ = some oldP) :
    StateWF (if (b, id_) ∈
          (s1.setSubDict b (dictSet (s1.subDict b) id_ Q)).producerOrder
        then s1.setSubDict b (dictSet (s1.subDict b) id_ Q)
        else { s1.setSubDict b (dictSet (s1.subDict b) id_ Q) with
          producerOrder :=
            (s1.setSubDict b (dictSet (s1.subDict b) id_ Q)).producerOrder
              ++ [(b, id_)] }) ∧
    dictFind ((if (b, id_) ∈
          (s1.setSubDict b (dictSet (s1.subDict b) id_ Q)).producerOrder
        then s1.setSubDict b (dictSet (s1.subDict b) id_ Q)
        else { s1.setSubDict b (dictSet (s1.subDict b) id_ Q) with
          producerOrder :=
            (s1.setSubDict b (dictSet (s1.subDict b) id_ Q)).producerOrder
              ++ [(b, id_)] }).subDict b) id_ = some Q := by
  have h2 : StateWF (s1.setSubDict b (dictSet (s1.subDict b) id_ Q)) :=
    wf_setSubDict _ _ _ h1 (dict_ok_set _ _ _ (StateWF.subDict_ok s1 h1 b) hQ hQid)
  have hfind2 :
      dictFind ((s1.setSubDict b (dictSet (s1.subDict b) id_ Q)).subDict b) id_
        = some Q := by
    rw [subDict_setSubDict]
    exact dictFind_dictSet_self _ _ _ _ hbind
  constructor
  · split
    · exact h2
    · exact wf_setOrder _ _ h2
  · split
    · exact hfind2
    · rw [subDict_setOrder]
      rw [subDict_setSubDict] at hfind2 ⊢
      exact hfind2

theorem gp_tail_wf (b : Bool) (id_ : String) (producer_e : Element)
    (tu : Option String) (sq : Bool) (s : ConvState) (h : StateWF s)
    (hc : CleanProducer producer_e) (hid : producer_e.getAttr "id" = some id_) :
    StateWF (get_producer_tail b id_ producer_e tu sq s).2 ∧
    CleanProducer (get_producer_tail b id_ producer_e tu sq s).1 ∧
    (get_producer_tail b id_ producer_e tu sq s).1.getAttr "id" = some id_ ∧
    ∃ q, dictFind ((get_producer_tail b id_ producer_e tu sq s).2.subDict b) id_
      = some q := by
  have hclean2 : ∀ (P : Element) (n : String) (t : Option String),
      CleanProducer P → P.getAttr "id" = some id_ →
      CleanProducer (if sq then
          (P.appendChild (create_property_element n t)).appendChild
            (create_property_element "mlt_service" (some "pixbuf"))
        else P.appendChild (create_property_element n t)) ∧
      (if sq then
          (P.appendChild (create_property_element n t)).appendChild
            (create_property_element "mlt_service" (some "pixbuf"))
        else P.appendChild (create_property_element n t)).getAttr "id"
        = some id_ := by
    intro P n t hP hPid
    cases sq
    · exact ⟨cleanProducer_appendChild _ _ hP (prop_leaf _ _), hPid⟩
    · exact ⟨cleanProducer_appendChild _ _
        (cleanProducer_appendChild _ _ hP (prop_leaf _ _)) (prop_leaf _ _), hPid⟩
  have hclean1 : ∀ (P : Element),
      CleanProducer P → P.getAttr "id" = some id_ →
      CleanProducer (if sq then
          P.appendChild (create_property_element "mlt_service" (some "pixbuf"))
        else P) ∧
      (if sq then
          P.appendChild (create_property_element "mlt_service" (some "pixbuf"))
        else P).getAttr "id" = some id_ := by
    intro P hP hPid
    cases sq
    · exact ⟨hP, hPid⟩
    · exact ⟨cleanProducer_appendChild _ _ hP (prop_leaf _ _), hPid⟩
  simp only [get_producer_tail]
  rcases ho : dictFind (s.subDict b) id_ with _ | P
  · -- fresh registration
    simp only [ho, Option.getD]
    have h1 : StateWF (s.setSubDict b (s.subDict b ++ [(id_, producer_e)])) :=
      wf_setSubDict _ _ _ h (dict_ok_insert _ _ _ (StateWF.subDict_ok s h b) hc hid)
    have hin : dictFind ((s.setSubDict b
        (s.subDict b ++ [(id_, producer_e)])).subDict b) id_ = some producer_e := by
      rw [subDict_setSubDict]
      exact dictFind_append_self _ _ _ ho
    rcases hr : producer_e.findResource with _ | pe
    · simp only [hr]
      have hcq := hclean2 producer_e "resource"
        (some (match tu with | none => id_ | some u => if u = "" then id_ else u))
        hc hid
      have hend := gp_enter_end b id_ _ producer_e _ h1 hcq.1 hcq.2 hin
      exact ⟨hend.1, hcq.1, hcq.2, ⟨_, hend.2⟩⟩
    · simp only [hr]
      by_cases htxt : pe.txt = some "black"
      · have hcnd : (decide (pe.txt = some "black")) = true := by simp [htxt]
        simp only [hcnd]
        have hcq := hclean1 producer_e hc hid
        have hend := gp_enter_end b id_ _ producer_e _ h1 hcq.1 hcq.2 hin
        exact ⟨hend.1, hcq.1, hcq.2, ⟨_, hend.2⟩⟩
      · have hcnd : (decide (pe.txt = some "black")) = false := decide_eq_false htxt
        simp only [hcnd]
        exact ⟨h1, hc, hid, ⟨_, hin⟩⟩
  · -- existing producer
    simp only [ho, Option.getD]
    have hPok := dictFind_ok _ _ _ (StateWF.subDict_ok s h b) ho
    rcases hr : P.findResource with _ | pe
    · simp only [hr]
      have hcq := hclean2 P "resource"
        (some (match tu with | none => id_ | some u => if u = "" then id_ else u))
        hPok.1 hPok.2
      have hend := gp_enter_end b id_ _ P _ h hcq.1 hcq.2 ho
      exact ⟨hend.1, hcq.1, hcq.2, ⟨_, hend.2⟩⟩
    · simp only [hr]
      by_cases htxt : pe.txt = some "black"
      · have hcnd : (decide (pe.txt = some "black")) = true := by simp [htxt]
        simp only [hcnd]
        have hcq := hclean1 P hPok.1 hPok.2
        have hend := gp_enter_end b id_ _ P _ h hcq.1 hcq.2 ho
        exact ⟨hend.1, hcq.1, hcq.2, ⟨_, hend.2⟩⟩
      · have hcnd : (decide (pe.txt = some "black")) = false := decide_eq_false htxt
        simp only [hcnd]
        exact ⟨h, hPok.1, hPok.2, ⟨_, ho⟩⟩

theorem get_producer_wf (it : SItem) (b : Bool) (s : ConvState) (h : StateWF s) :
    StateWF (get_producer it b s).2 ∧
    CleanProducer (get_producer it b s).1 ∧
    (get_producer it b s).1.getAttr "id" = some (gpId it) ∧
    ∃ q, dictFind ((get_producer it b s).2.subDict b) (gpId it) = some q := by
  have fresh_ok : ∀ id0 : String,
      CleanProducer (Element.elem "producer" [("id", id0)] none []) ∧
      (Element.elem "producer" [("id", id0)] none []).getAttr "id" = some id0 :=
    fun id0 => ⟨⟨rfl, by intro c hc; simp [Element.children] at hc⟩, rfl⟩
  cases it with
  | gapS d =>
      exact gp_tail_wf b "solid_black" (create_solid "black" d) none false s h
        (create_solid_clean "black" d).1 (create_solid_clean "black" d).2
  | clipS c =>
      rcases c with ⟨nm, ss, sd, mr, ef⟩
      cases mr with
      | missing =>
          exact gp_tail_wf b nm _ none false s h (fresh_ok nm).1 (fresh_ok nm).2
      | external n url =>
          exact gp_tail_wf b (if n = "" then nm else n) _ (some url) false s h
            (fresh_ok _).1 (fresh_ok _).2
      | imageSequence n tpl pad sf =>
          exact gp_tail_wf b (if n = "" then nm else n) _
            (some (abstract_target_url tpl ("%0" ++ toString pad ++ "d")
              ++ "?begin=" ++ toString sf)) true s h
            (fresh_ok _).1 (fresh_ok _).2

theorem getAttr_setResourceText (e : Element) (f : Option String → Option String)
    (k : String) : (e.setResourceText f).getAttr k = e.getAttr k := rfl

theorem tag_setAttr (e : Element) (k v : String) :
    (e.setAttr k v).tag = e.tag := rfl

theorem apply_timewarp_wf (it : SItem) (ie : Option Element) (eff : Effect)
    (s : ConvState) (h : StateWF s) :
    StateWF (apply_timewarp it ie eff s).2 ∧
    ((apply_timewarp it ie eff s).1).map Element.tag = ie.map Element.tag := by
  cases ie with
  | none => exact ⟨h, rfl⟩
  | some e =>
      have hg := get_producer_wf it true s h
      have hgv : StateWF (get_producer it true s).2 := hg.1
      cases eff with
      | nonTime nm => exact ⟨h, rfl⟩
      | freezeFrame =>
          simp only [apply_timewarp]
          refine ⟨?_, rfl⟩
          split
          · exact hgv
          · refine ⟨?_, hgv.audio, hgv.trans, hgv.plays⟩
            apply dict_ok_insert _ _ _ hgv.video
            · exact cleanProducer_appendChild _ _
                (cleanProducer_appendChild _ _
                  (cleanProducer_setAttr _ _ _ hg.2.1) (prop_leaf _ _))
                (prop_leaf _ _)
            · rw [getAttr_appendChild, getAttr_appendChild, getAttr_setAttr_self]
      | linearTimeWarp k =>
          simp only [apply_timewarp]
          refine ⟨?_, rfl⟩
          split
          · exact hgv
          · refine ⟨?_, hgv.audio, hgv.trans, hgv.plays⟩
            apply dict_ok_insert _ _ _ hgv.video
            · exact cleanProducer_setResourceText _ _
                (cleanProducer_appendChild _ _
                  (cleanProducer_setAttr _ _ _ hg.2.1) (prop_leaf _ _))
            · rw [getAttr_setResourceText, getAttr_appendChild, getAttr_setAttr_self]

theorem applyEffects_wf (it : SItem) (ie : Option Element) (effs : List Effect)
    (s : ConvState) (h : StateWF s) :
    StateWF (applyEffects it ie effs s).2 ∧
    ((applyEffects it ie effs s).1).map Element.tag = ie.map Element.tag := by
  induction effs generalizing ie s with
  | nil => exact ⟨h, rfl⟩
  | cons f fs ih =>
      simp only [applyEffects]
      by_cases hf : f.isTimeEffect
      · simp only [hf]
        have ha := apply_timewarp_wf it ie f s h
        have hr := ih (apply_timewarp it ie f s).1 (apply_timewarp it ie f s).2 ha.1
        exact ⟨hr.1, hr.2.trans ha.2⟩
      · have hf' : f.isTimeEffect = false := by
          simpa using hf
        simp only [hf']
        exact ih ie s h

theorem create_transition_wf (a : SItem) (i o : Int) (bLeg : SItem)
    (name : String) (s : ConvState) (h : StateWF s) :
    StateWF (create_transition a i o bLeg name s).2 ∧
    (create_transition a i o bLeg name s).1.tag = "tractor" := by
  have h1 := get_producer_wf a true s h
  have h2 := get_producer_wf bLeg true (get_producer a true s).2 h1.1
  exact ⟨h2.1, rfl⟩

theorem wf_transAppend (s : ConvState) (t : Element) (h : StateWF s)
    (ht : t.tag = "tractor") :
    StateWF { s with transitions := s.transitions ++ [t] } := by
  refine ⟨h.video, h.audio, ?_, h.plays⟩
  intro q hq
  rcases List.mem_append.mp hq with hq | hq
  · exact h.trans q hq
  · simp at hq
    subst hq
    exact ht

theorem wf_playAppend (s : ConvState) (p : Element) (h : StateWF s)
    (hp : p.tag = "playlist") :
    StateWF { s with playlists := s.playlists ++ [p] } := by
  refine ⟨h.video, h.audio, h.trans, ?_⟩
  intro q hq
  rcases List.mem_append.mp hq with hq | hq
  · exact h.plays q hq
  · simp at hq
    subst hq
    exact hp

theorem wf_playSet (s : ConvState) (i : Nat) (p : Element) (h : StateWF s)
    (hp : p.tag = "playlist") :
    StateWF { s with playlists := s.playlists.set i p } := by
  refine ⟨h.video, h.audio, h.trans, ?_⟩
  intro q hq
  rcases List.mem_or_eq_of_mem_set hq with hq | hq
  · exact h.plays q hq
  · subst hq
    exact hp

theorem wf_playAppend2 (s : ConvState) (a : List (String × String))
    (x : Option String) (c : List Element) (h : StateWF s) :
    StateWF { s with playlists := s.playlists ++ [Element.elem "playlist" a x c] } :=
  wf_playAppend s _ h rfl

theorem wf_playSet2 (s : ConvState) (i : Nat) (a : List (String × String))
    (x : Option String) (c : List Element) (h : StateWF s) :
    StateWF { s with playlists := s.playlists.set i (Element.elem "playlist" a x c) } :=
  wf_playSet s i _ h rfl

theorem assemble_wf_aux : ∀ n : Nat,
    (∀ (prev : Option TItem) (x : TItem) (next : Option TItem) (isAudio : Bool)
      (ti : Nat) (s : ConvState), sizeOf x ≤ n → StateWF s →
      StateWF (assembleOne prev x next isAudio ti s).2) ∧
    (∀ (prev : Option TItem) (items : List TItem) (isAudio : Bool)
      (ti : Nat) (s : ConvState), sizeOf items ≤ n → StateWF s →
      StateWF (assemble_items prev items isAudio ti s).2) := by
  intro n
  induction n using Nat.strong_induction_on with
  | _ n ih =>
    constructor
    · intro prev x next isAudio ti s hsz hs
      cases x with
      | clip c =>
          simp only [assembleOne]
          have h1 := get_producer_wf
            (.clipS (trim_from_transitions c prev next)) true s hs
          split
          · exact h1.1
          · exact (applyEffects_wf _ _ _ _ h1.1).1
      | gap d effs =>
          simp only [assembleOne]
          exact (applyEffects_wf _ _ _ _ hs).1
      | transition i o =>
          simp only [assembleOne]
          have hct := create_transition_wf (expand_pre prev i o) i o
            (expand_post next i o)
            ("transition_tractor" ++ toString s.transitions.length) s hs
          exact wf_transAppend _ _ hct.1 hct.2
      | stack nm cs effs =>
          simp only [assembleOne]
          have hcs : sizeOf cs < n := by
            simp only [TItem.stack.sizeOf_spec] at hsz
            omega
          have h0 := wf_playAppend s
            (Element.elem "playlist"
              [("id", if nm = "" then "playlist" ++ toString ti else nm)] none [])
            hs rfl
          have hrc := (ih (sizeOf cs) hcs).2 none cs false ti _ (le_refl _) h0
          exact (applyEffects_wf _ _ _ _ (wf_playSet2 _ s.playlists.length _ _ _ hrc)).1
    · intro prev items isAudio ti s hsz hs
      cases items with
      | nil => simpa [assemble_items] using hs
      | cons x rest =>
          simp only [assemble_items]
          have hx : sizeOf x < n := by
            simp only [List.cons.sizeOf_spec] at hsz
            omega
          have hrest : sizeOf rest < n := by
            simp only [List.cons.sizeOf_spec] at hsz
            omega
          have h1 := (ih (sizeOf x) hx).1 prev x rest.head? isAudio ti s
            (le_refl _) hs
          exact (ih (sizeOf rest) hrest).2 (some x) rest isAudio ti _ (le_refl _) h1

theorem assemble_items_wf (prev : Option TItem) (items : List TItem)
    (isAudio : Bool) (ti : Nat) (s : ConvState) (h : StateWF s) :
    StateWF (assemble_items prev items isAudio ti s).2 :=
  (assemble_wf_aux (sizeOf items)).2 prev items isAudio ti s (le_refl _) h

theorem assemble_track_wf (tname : String) (kind : Option String)
    (items : List TItem) (ti : Nat) (ptag : String) (s : ConvState)
    (h : StateWF s) :
    StateWF (assemble_track tname kind items ti ptag s).2 := by
  simp only [assemble_track]
  exact wf_playSet2 _ _ _ _ _
    (assemble_items_wf _ _ _ _ _ (wf_playAppend2 _ _ _ _ h))

theorem create_background_track_wf (len : Int) (s : ConvState) (h : StateWF s) :
    StateWF (create_background_track len s).2 := by
  simp only [create_background_track]
  have pl : ∀ (ps : List Element), (∀ p ∈ ps, p.tag = "playlist") →
      ∀ p ∈ ps ++ [Element.elem "playlist" [("id", "background")] none
        [create_entry_element (create_solid "black" len) 0 (len - 1)]],
      p.tag = "playlist" := by
    intro ps hps q hq
    rcases List.mem_append.mp hq with hq | hq
    · exact hps q hq
    · simp at hq
      subst hq
      rfl
  rcases hb : dictFind s.producersVideo "solid_black" with _ | P
  · simp only [hb]
    exact ⟨dict_ok_insert _ _ _ h.video (create_solid_clean _ _).1
        (create_solid_clean _ _).2, h.audio, h.trans, pl _ h.plays⟩
  · simp only [hb]
    exact ⟨h.video, h.audio, h.trans, pl _ h.plays⟩

theorem assembleTracks_wf (ts : List OtioTrack) (i : Nat) (s : ConvState)
    (h : StateWF s) : StateWF (assembleTracks ts i s).2 := by
  induction ts generalizing i s with
  | nil => simpa [assembleTracks] using h
  | cons t rest ih =>
      simp only [assembleTracks]
      exact ih _ _ (assemble_track_wf _ _ _ _ _ _ h)

theorem assemble_timeline_wf (tracks : List OtioTrack) (s : ConvState)
    (h : StateWF s) :
    StateWF (assemble_timeline tracks s).2 ∧
    (assemble_timeline tracks s).1.tag = "tractor" ∧
    (assemble_timeline tracks s).1.getAttr "id" = some "tractor0" := by
  refine ⟨?_, rfl, rfl⟩
  simp only [assemble_timeline]
  exact assembleTracks_wf _ _ _ (create_background_track_wf _ _ h)

/-! ## C3 — document layout -/

theorem foldl_flip_cons (l acc : List α) :
    l.foldl (fun acc x => x :: acc) acc = l.reverse ++ acc := by
  induction l generalizing acc with
  | nil => simp
  | cons x xs ih => simp [ih]

theorem insertBeforeLast_append (ys : List α) (t x : α) :
    insertBeforeLast (ys ++ [t]) x = (ys ++ [x]) ++ [t] := by
  unfold insertBeforeLast
  have hlen : (ys ++ [t]).length - 1 = ys.length := by simp
  rw [hlen, List.take_left, List.drop_left]
  simp

theorem foldl_insertBeforeLast (xs ys : List α) (t : α) :
    xs.foldl insertBeforeLast (ys ++ [t]) = (ys ++ xs) ++ [t] := by
  induction xs generalizing ys with
  | nil => simp
  | cons x xs ih =>
      rw [List.foldl_cons, insertBeforeLast_append, ih (ys ++ [x])]
      simp

/-- The layout of the emitted document: profile, producers in reverse
creation order, transition tractors, playlists, root tractor; together
with the housekeeping facts needed downstream (the profile is a leaf
and the final state satisfies the invariant when the initial one
does). -/
theorem convert_children_layout (input : OtioInput) (pd : List (String × String))
    (s : ConvState) (doc : Element) (s' : ConvState)
    (h : convert input pd s = .ok (doc, s')) :
    ∃ prof T : Element,
      doc.children
        = prof :: ((resolveOrder s').reverse
            ++ (s'.transitions ++ (s'.playlists ++ [T]))) ∧
      prof.tag = "profile" ∧ prof.children = [] ∧ T.tag = "tractor" ∧
      T.getAttr "id" = some "tractor0" ∧ (StateWF s → StateWF s') := by
  have key : ∀ (prof0 : Element) (tracks : List OtioTrack),
      ∀ doc1 s1, (Element.elem "mlt" [] none
          (prof0 ::
            ((assemble_timeline tracks s).2.playlists.foldl insertBeforeLast
              ((assemble_timeline tracks s).2.transitions.foldl insertBeforeLast
                ((resolveOrder (assemble_timeline tracks s).2).foldl
                  (fun acc p => p :: acc) [(assemble_timeline tracks s).1])))),
          (assemble_timeline tracks s).2) = (doc1, s1) →
        prof0.tag = "profile" → prof0.children = [] →
        ∃ prof T : Element,
          doc1.children
            = prof :: ((resolveOrder s1).reverse
                ++ (s1.transitions ++ (s1.playlists ++ [T]))) ∧
          prof.tag = "profile" ∧ prof.children = [] ∧ T.tag = "tractor" ∧
          T.getAttr "id" = some "tractor0" ∧ (StateWF s → StateWF s1) := by
    intro prof0 tracks doc1 s1 heq hprof hprofc
    have hdoc : doc1 = Element.elem "mlt" [] none
        (prof0 ::
          ((assemble_timeline tracks s).2.playlists.foldl insertBeforeLast
            ((assemble_timeline tracks s).2.transitions.foldl insertBeforeLast
              ((resolveOrder (assemble_timeline tracks s).2).foldl
                (fun acc p => p :: acc) [(assemble_timeline tracks s).1])))) :=
      (congrArg Prod.fst heq).symm
    have hs : s1 = (assemble_timeline tracks s).2 := (congrArg Prod.snd heq).symm
    refine ⟨prof0, (assemble_timeline tracks s).1, ?_, hprof, hprofc, ?_, ?_, ?_⟩
    · rw [hdoc, hs]
      simp only [Element.children]
      congr 1
      rw [foldl_flip_cons _ [(assemble_timeline tracks s).1]]
      have h2 := foldl_insertBeforeLast
        (assemble_timeline tracks s).2.transitions
        (resolveOrder (assemble_timeline tracks s).2).reverse
        (assemble_timeline tracks s).1
      rw [h2]
      have h3 := foldl_insertBeforeLast
        (assemble_timeline tracks s).2.playlists
        ((resolveOrder (assemble_timeline tracks s).2).reverse
          ++ (assemble_timeline tracks s).2.transitions)
        (assemble_timeline tracks s).1
      rw [h3]
      simp [List.append_assoc]
    · rfl
    · rfl
    · intro hws
      rw [hs]
      exact (assemble_timeline_wf tracks s hws).1
  cases input with
  | timeline gst tracks =>
      cases gst with
      | none =>
          simp only [convert] at h
          exact key _ tracks doc s' (Except.ok.inj h) (by
              by_cases hpd : pd = [] <;>
                simp [hpd, update_profile_with_dict, create_profile_element, Element.tag])
            (by
              by_cases hpd : pd = [] <;>
                simp [hpd, update_profile_with_dict, create_profile_element,
                  Element.children])
      | some t =>
          simp only [convert] at h
          exact key _ tracks doc s' (Except.ok.inj h) (by
              by_cases hpd : pd = [] <;>
                simp [hpd, update_profile_with_time, update_profile_with_dict,
                  create_profile_element, Element.tag])
            (by
              by_cases hpd : pd = [] <;>
                simp [hpd, update_profile_with_time, update_profile_with_dict,
                  create_profile_element, Element.children])
  | track t =>
      simp only [convert] at h
      exact key _ [t] doc s' (Except.ok.inj h) (by
          by_cases hpd : pd = [] <;>
            simp [hpd, update_profile_with_dict, create_profile_element, Element.tag])
        (by
          by_cases hpd : pd = [] <;>
            simp [hpd, update_profile_with_dict, create_profile_element,
              Element.children])
  | stack tracks =>
      simp only [convert] at h
      exact key _ tracks doc s' (Except.ok.inj h) (by
          by_cases hpd : pd = [] <;>
            simp [hpd, update_profile_with_dict, create_profile_element, Element.tag])
        (by
          by_cases hpd : pd = [] <;>
            simp [hpd, update_profile_with_dict, create_profile_element,
              Element.children])
  | clip c =>
      simp only [convert] at h
      exact key _ [wrapClip c] doc s' (Except.ok.inj h) (by
          by_cases hpd : pd = [] <;>
            simp [hpd, update_profile_with_dict, create_profile_element, Element.tag])
        (by
          by_cases hpd : pd = [] <;>
            simp [hpd, update_profile_with_dict, create_profile_element,
              Element.children])
  | other tn =>
      simp only [convert] at h
      exact absurd h (by simp)


/-- C3 (amended): for every successful conversion the document's
children are laid out as: the profile element, then the registered
Sources in **reverse** creation order (each `root.insert(0, producer)`
prepends), then the transition tractors in creation order, then the
playlists in creation order, then the root tractor. -/
theorem C3_document_layout (input : OtioInput) (pd : List (String × String))
    (s : ConvState) (doc : Element) (s' : ConvState)
    (h : convert input pd s = .ok (doc, s')) :
    ∃ prof T : Element,
      doc.children
        = prof :: ((resolveOrder s').reverse
            ++ (s'.transitions ++ (s'.playlists ++ [T]))) ∧
      prof.tag = "profile" ∧ T.tag = "tractor" ∧
      T.getAttr "id" = some "tractor0" := by
  obtain ⟨prof, T, h1, h2, _, h3, h4, _⟩ := convert_children_layout input pd s doc s' h
  exact ⟨prof, T, h1, h2, h3, h4⟩

/-- The result of converting the two-clip timeline from a fresh
state. -/
def exResult : Element × ConvState :=
  ((convert exTl [] initMltState).toOption).getD
    (Element.elem "" [] none [], initMltState)

/-- C3 (counterexample): in the emitted document of the two-clip
timeline the producer nodes read `B, A, solid_black` — the **reverse**
of the recorded first-use order `solid_black, A, B`, so the claim that
Sources appear in creation order is false. -/
theorem C3_counterexample :
    ((exResult.1.children.filter (fun e => e.tag = "producer")).filterMap
        (fun e => e.getAttr "id"))
      = (exResult.2.producerOrder.map (fun h => h.2)).reverse ∧
    exResult.2.producerOrder.map (fun h => h.2)
      = ["solid_black", "A", "B"] ∧
    ¬ (((exResult.1.children.filter (fun e => e.tag = "producer")).filterMap
        (fun e => e.getAttr "id"))
      = exResult.2.producerOrder.map (fun h => h.2)) := by
  refine ⟨rfl, rfl, ?_⟩
  intro hcontra
  simp only [show ((exResult.1.children.filter (fun e => e.tag = "producer")).filterMap
      (fun e => e.getAttr "id")) = ["B", "A", "solid_black"] from rfl,
    show exResult.2.producerOrder.map (fun h => h.2) = ["solid_black", "A", "B"] from rfl]
      at hcontra
  simp at hcontra

/-- C3 witness: the amended layout theorem applied to the concrete
two-clip timeline. -/
theorem C3_document_layout_witness :
    ∃ prof T : Element,
      exResult.1.children
        = prof :: ((resolveOrder exResult.2).reverse
            ++ (exResult.2.transitions ++ (exResult.2.playlists ++ [T]))) ∧
      prof.tag = "profile" ∧ T.tag = "tractor" ∧
      T.getAttr "id" = some "tractor0" :=
  C3_document_layout exTl [] initMltState exResult.1 exResult.2 rfl


theorem refsOf_nonref_leaf (t : String) (a : List (String × String))
    (x : Option String) (ht : ¬ (t = "track" ∨ t = "entry")) :
    refsOf (.elem t a x []) = [] := by
  rw [refsOf, if_neg ht]
  simp [refsOf.refsList]

theorem resolveOrder_clean (s : ConvState) (h : StateWF s) :
    ∀ e ∈ resolveOrder s, CleanProducer e := by
  intro e he
  rw [resolveOrder] at he
  rcases List.mem_filterMap.mp he with ⟨hd, hmem, hfind⟩
  cases hbv : hd.1
  · rw [hbv] at hfind
    exact (dictFind_ok _ _ _ h.audio hfind).1
  · rw [hbv] at hfind
    exact (dictFind_ok _ _ _ h.video hfind).1

/-- C7: in the emitted document, every `producer` id referenced by a
`track` / `entry` attribute of some top-level child appears as a
`producer` node strictly earlier in document order: for any
decomposition of the children around a reference-bearing element, the
referenced producer lies in the prefix. -/
theorem C7_producers_before_use (input : OtioInput) (pd : List (String × String))
    (doc : Element) (s' : ConvState)
    (h : convert input pd initMltState = .ok (doc, s')) :
    ∀ (pre : List Element) (e : Element) (post : List Element),
      doc.children = pre ++ e :: post →
      ∀ r ∈ refsOf e,
        r ∈ (doc.children.filter (fun el => el.tag = "producer")).filterMap
            (fun el => el.getAttr "id") →
        ∃ p ∈ pre, p.tag = "producer" ∧ p.getAttr "id" = some r := by
  obtain ⟨prof, T, hchild, hptag, hpchild, httag, _, hwf⟩ :=
    convert_children_layout input pd initMltState doc s' h
  have hswf := hwf initMltState_wf
  have hPrevClean : ∀ q ∈ (resolveOrder s').reverse, CleanProducer q := by
    intro q hq
    exact resolveOrder_clean s' hswf q (List.mem_reverse.mp hq)
  intro pre e post hdecomp r hr hrid
  have hex : ∃ pel ∈ doc.children,
      pel.tag = "producer" ∧ pel.getAttr "id" = some r := by
    rcases List.mem_filterMap.mp hrid with ⟨pel, hmem, hid⟩
    rcases List.mem_filter.mp hmem with ⟨hmem2, htagp⟩
    exact ⟨pel, hmem2, by simpa using htagp, hid⟩
  rcases hex with ⟨pel, hpelmem, hpeltag, hpelid⟩
  have hpelPrev : pel ∈ (resolveOrder s').reverse := by
    rw [hchild] at hpelmem
    rcases List.mem_cons.mp hpelmem with heq | hmem
    · subst heq
      exact absurd (hptag.symm.trans hpeltag) (by decide)
    rcases List.mem_append.mp hmem with h1 | h2
    · exact h1
    rcases List.mem_append.mp h2 with h3 | h4
    · exact absurd ((hswf.trans pel h3).symm.trans hpeltag) (by decide)
    rcases List.mem_append.mp h4 with h5 | h6
    · exact absurd ((hswf.plays pel h5).symm.trans hpeltag) (by decide)
    · have : pel = T := by simpa using h6
      subst this
      exact absurd (httag.symm.trans hpeltag) (by decide)
  have htakeP : doc.children.take (prof :: (resolveOrder s').reverse).length
      = prof :: (resolveOrder s').reverse := by
    rw [hchild]
    rw [show prof :: ((resolveOrder s').reverse
        ++ (s'.transitions ++ (s'.playlists ++ [T])))
      = (prof :: (resolveOrder s').reverse)
        ++ (s'.transitions ++ (s'.playlists ++ [T])) from rfl]
    exact List.take_left _ _
  have hlen : (prof :: (resolveOrder s').reverse).length ≤ pre.length := by
    by_contra hlt
    push_neg at hlt
    have he : e ∈ prof :: (resolveOrder s').reverse := by
      have htake2 : doc.children.take (prof :: (resolveOrder s').reverse).length
          = pre ++ (e :: post).take
              ((prof :: (resolveOrder s').reverse).length - pre.length) := by
        rw [hdecomp, List.take_append_eq_append_take]
        congr 1
        exact List.take_of_length_le (le_of_lt hlt)
      have hmm : e ∈ pre ++ (e :: post).take
          ((prof :: (resolveOrder s').reverse).length - pre.length) := by
        apply List.mem_append_right
        obtain ⟨k, hk⟩ := Nat.exists_eq_succ_of_ne_zero
          (show (prof :: (resolveOrder s').reverse).length - pre.length ≠ 0 by omega)
        rw [hk, List.take_succ_cons]
        exact List.mem_cons_self _ _
      rw [← htake2, htakeP] at hmm
      exact hmm
    rcases List.mem_cons.mp he with heq | he2
    · subst heq
      have hprofrefs : refsOf e = [] := by
        cases e with
        | elem t a x cs =>
            have ht : t = "profile" := hptag
            have hcs : cs = [] := hpchild
            subst ht
            subst hcs
            exact refsOf_nonref_leaf _ _ _ (by decide)
      rw [hprofrefs] at hr
      exact absurd hr (List.not_mem_nil r)
    · rw [refsOf_clean e (hPrevClean e he2)] at hr
      exact absurd hr (List.not_mem_nil r)
  have hpre : doc.children.take pre.length = pre := by
    rw [hdecomp]
    exact List.take_left _ _
  have hsub : pre.take (prof :: (resolveOrder s').reverse).length
      = prof :: (resolveOrder s').reverse := by
    rw [← hpre, List.take_take, min_eq_left hlen]
    exact htakeP
  refine ⟨pel, ?_, hpeltag, hpelid⟩
  have : pel ∈ pre.take (prof :: (resolveOrder s').reverse).length := by
    rw [hsub]
    exact List.mem_cons_of_mem _ hpelPrev
  exact List.take_subset _ _ this

/-! ## C10 — audio clips are always suppressed -/

theorem assembleOne_wf (prev : Option TItem) (x : TItem) (next : Option TItem)
    (isAudio : Bool) (ti : Nat) (s : ConvState) (h : StateWF s) :
    StateWF (assembleOne prev x next isAudio ti s).2 :=
  (assemble_wf_aux (sizeOf x)).1 prev x next isAudio ti s (le_refl _) h

/-- On an audio track, a clip contributes no element: `get_producer`
(called with the default video namespace) has just registered the
clip's key into `producers['video']`, so the duplicate check always
fires and the clip is skipped. -/
theorem assembleOne_audio_clip (prev next : Option TItem) (c : ClipData)
    (ti : Nat) (s : ConvState) (hwf : StateWF s) :
    (assembleOne prev (.clip c) next true ti s).1 = [] := by
  have hgp := get_producer_wf
    (.clipS (trim_from_transitions c prev next)) true s hwf
  obtain ⟨q, hq⟩ := hgp.2.2.2
  have hcond : (dictFind
      (get_producer (.clipS (trim_from_transitions c prev next)) true s).2.producersVideo
      (((get_producer (.clipS (trim_from_transitions c prev next)) true
          s).1.getAttr "id").getD "")).isSome = true := by
    rw [hgp.2.2.1]
    exact Option.isSome_iff_exists.mpr ⟨q, hq⟩
  simp only [assembleOne, Bool.true_and, hcond, if_pos]

/-- `apply_timewarp` and the effects loop never change an element's
tag (only its `producer` attribute is rewritten). -/
theorem applyEffects_tag (it : SItem) (ie : Option Element) (effs : List Effect)
    (s : ConvState) :
    ((applyEffects it ie effs s).1).map Element.tag = ie.map Element.tag := by
  induction effs generalizing ie s with
  | nil => rfl
  | cons f fs ih =>
      simp only [applyEffects]
      by_cases hf : f.isTimeEffect
      · simp only [hf]
        have ha : ((apply_timewarp it ie f s).1).map Element.tag
            = ie.map Element.tag := by
          cases ie with
          | none => rfl
          | some e => cases f <;> rfl
        exact (ih _ _).trans ha
      · have hf' : f.isTimeEffect = false := by simpa using hf
        simp only [hf']
        exact ih ie s

/-- A gap contributes only a `blank` element (possibly decorated by
effects, which never change the tag). -/
theorem assembleOne_gap_tags (prev next : Option TItem) (d : Int)
    (effs : List Effect) (isAudio : Bool) (ti : Nat) (s : ConvState) :
    ∀ el ∈ (assembleOne prev (.gap d effs) next isAudio ti s).1,
      el.tag = "blank" := by
  intro el hel
  simp only [assembleOne] at hel
  have hmaps := applyEffects_tag (.gapS (trim_gap_from_transitions d prev next))
    (some (create_blank_element (trim_gap_from_transitions d prev next))) effs s
  rcases hoe : (applyEffects (.gapS (trim_gap_from_transitions d prev next))
      (some (create_blank_element (trim_gap_from_transitions d prev next)))
      effs s).1 with _ | el'
  · rw [hoe] at hel
    simp at hel
  · rw [hoe] at hel
    simp only [Option.toList] at hel
    rw [hoe] at hmaps
    simp only [Option.map_some'] at hmaps
    have : el = el' := by simpa using hel
    subst this
    exact Option.some.inj hmaps


/-- C10: on an audio-kind track (where `is_audio_track` is true), no
clip ever contributes an Entry to the playlist: `get_producer` is
called with the default (video) namespace, registering the clip's key
into `producers['video']` before the duplicate check, so the check
always succeeds and every audio clip is suppressed — even when no
video track carries that media.  Gaps still contribute `blank`
elements, so the playlist's children are blanks only. -/
theorem C10_audio_clips_suppressed (prev : Option TItem) (items : List TItem)
    (ti : Nat) (s : ConvState) (hwf : StateWF s)
    (hitems : ∀ x ∈ items,
      (∃ c, x = TItem.clip c) ∨ (∃ d effs, x = TItem.gap d effs)) :
    ∀ el ∈ (assemble_items prev items true ti s).1, el.tag = "blank" := by
  induction items generalizing prev s with
  | nil =>
      intro el hel
      simp [assemble_items] at hel
  | cons x rest ih =>
      intro el hel
      simp only [assemble_items] at hel
      rcases List.mem_append.mp hel with h1 | h2
      · rcases hitems x (by simp) with ⟨c, rfl⟩ | ⟨d, effs, rfl⟩
        · rw [assembleOne_audio_clip prev rest.head? c ti s hwf] at h1
          simp at h1
        · exact assembleOne_gap_tags prev rest.head? d effs true ti s el h1
      · exact ih (some x) (assembleOne prev x rest.head? true ti s).2
          (assembleOne_wf _ _ _ _ _ _ hwf)
          (fun y hy => hitems y (by simp [hy])) el h2

/-- C10 witness: an audio track holding one clip, converted from a
fresh state in which no video track carries the media, produces an
empty playlist. -/
theorem C10_audio_clips_suppressed_witness :
    (assemble_items none [TItem.clip mClip] true 0 initMltState).1 = [] ∧
    (∀ el ∈ (assemble_items none [TItem.clip mClip] true 0 initMltState).1,
      el.tag = "blank") :=
  ⟨rfl,
   C10_audio_clips_suppressed none [TItem.clip mClip] 0 initMltState
     initMltState_wf
     (by
       intro x hx
       simp only [List.mem_singleton] at hx
       subst hx
       exact Or.inl ⟨mClip, rfl⟩)⟩

/-- The first five children of the example document (profile and the
producer block and the background playlist). -/
def exPre : List Element := exResult.1.children.take 5

/-- The example document's track playlist (the reference-bearing
element). -/
def exRefEl : Element :=
  (exResult.1.children.drop 5).headD (Element.elem "" [] none [])

/-- What follows it (the root tractor). -/
def exPost : List Element := exResult.1.children.drop 6

/-- C7 witness: in the two-clip example document, the reference to
producer `A` inside the track playlist is satisfied by a `producer`
node in the preceding prefix. -/
theorem C7_producers_before_use_witness :
    exResult.1.children = exPre ++ exRefEl :: exPost ∧
    "A" ∈ refsOf exRefEl ∧
    ∃ p ∈ exPre, p.tag = "producer" ∧ p.getAttr "id" = some "A" :=
  ⟨rfl, by decide,
   C7_producers_before_use exTl [] exResult.1 exResult.2 rfl exPre exRefEl exPost
     rfl "A" (by decide) (by decide)⟩

end MltXml
